import Mathlib

/-!
Verification of the navigation and line-wrapping core of the `red` modal
terminal text editor (`src/util.rs`, `src/editor.rs`, `src/main.rs`).

The Rust source is shallowly embedded:
* the text buffer (a ropey `Rope`) becomes `List Char`, with ropey's line
  semantics (a line includes its terminating newline; a buffer with a
  trailing newline has a final empty line; `len_lines = #newlines + 1`)
  reproduced by `splitLines`;
* `VirtualLineIterator::next` (src/util.rs:92-112) becomes `virtualLines`,
  via a per-line chunking function;
* `Editor` and its cursor operations (src/editor.rs) become an `Editor`
  structure and functions `cursor_right/left/up/down`, `cap_cursor`,
  `compute_virtual_lines`, `Editor.new` and `handle_event`.

Machine integers are modelled as `Nat`.  Arithmetic that can wrap in Rust
(release profile two's-complement wrapping for `+`/`-` on `u16`/`usize`)
is written with explicit `% U16` / `% U64` wrapping via `wsub`/`%`;
`saturating_sub` is `Nat` subtraction, `checked_sub` is an explicit test.
Slice indexing `virtual_lines[i]` panics in Rust in every build profile
when out of bounds, so every operation that indexes is `Option`-valued:
`none` models a panic (so does the `todo!()` arm of `handle_event`).
-/

/-- 2^16, the modulus of Rust `u16` arithmetic. -/
def U16 : Nat := 65536

/-- 2^64, the modulus of Rust `usize` arithmetic (64-bit target). -/
def U64 : Nat := 18446744073709551616

/-- Wrapping subtraction `a - b` modulo `m`, the release-profile semantics of
Rust unsigned subtraction (`u16` with `m = U16`, `usize` with `m = U64`). -/
def wsub (m a b : Nat) : Nat := (a % m + m - b % m) % m

theorem wsub_eq_sub {m a b : Nat} (hba : b ≤ a) (ha : a < m) : wsub m a b = a - b := by
  have hb : b < m := Nat.lt_of_le_of_lt hba ha
  unfold wsub
  rw [Nat.mod_eq_of_lt ha, Nat.mod_eq_of_lt hb]
  have h1 : a + m - b = (a - b) + m := by omega
  rw [h1, Nat.add_mod_right, Nat.mod_eq_of_lt (by omega)]

/-- Ceiling division `⌈a / b⌉` (used only to state properties of the table). -/
def cldiv (a b : Nat) : Nat := (a + b - 1) / b

theorem lt_cldiv_iff {W L j : Nat} (hW : 0 < W) : j < cldiv L W ↔ j * W < L := by
  unfold cldiv
  constructor
  · intro h
    have h2 : j + 1 ≤ (L + W - 1) / W := h
    have h3 := (Nat.le_div_iff_mul_le hW).mp h2
    have h4 : (j + 1) * W = j * W + W := by ring
    omega
  · intro h
    have h4 : (j + 1) * W = j * W + W := by ring
    have h2 : (j + 1) * W ≤ L + W - 1 := by omega
    exact (Nat.le_div_iff_mul_le hW).mpr h2

/-- The virtual-line descriptor of src/editor.rs:41-46.  The Rust field `end`
is renamed `stop` (`end` is a Lean keyword). -/
structure VirtualLine where
  start : Nat
  stop : Nat
  parent_line : Nat
  subline : Bool
deriving DecidableEq

/-- `VirtualLine::len` (src/editor.rs:70-72). -/
def VirtualLine.len (v : VirtualLine) : Nat := v.stop - v.start

/-- ropey's decomposition of a character sequence into lines: every line keeps
its terminating newline, and the text after the last newline (possibly empty)
is a final line, so `length (splitLines buf) = #newlines + 1`. -/
def splitLines : List Char → List (List Char)
  | [] => [[]]
  | c :: cs =>
    if c = '\n' then [c] :: splitLines cs
    else
      match splitLines cs with
      | [] => [[c]]
      | l :: ls => (c :: l) :: ls

/-- The successive wrap-width chunks that `VirtualLineIterator::next`
(src/util.rs:92-112) emits for the single line of length `L` starting at
absolute offset `s`, with parent index `p`, starting from in-line offset `o`:
`len = min self.len (line_len - line_offset)`, emit `(start, start+len)` with
`subline = (line_len != len) && (line_offset != 0)` while `len != 0`, stop at
`len == 0` (the iterator then moves to the next line).  Each emitted chunk
consumes at least one character, so `fuel = L` steps never cut the sequence
short (`vlineChunksAux_congr_fuel`); the fuel only makes the recursion
structural. -/
def vlineChunksAux (W s L p : Nat) : Nat → Nat → List VirtualLine
  | _, 0 => []
  | o, fuel + 1 =>
    let len := min W (L - o)
    if 0 < len then
      { start := s + o, stop := s + o + len, parent_line := p,
        subline := decide (L ≠ len ∧ o ≠ 0) } ::
        vlineChunksAux W s L p (o + len) fuel
    else []

theorem vlineChunksAux_congr_fuel (W s L p : Nat) :
    ∀ f g o, L - o ≤ f → L - o ≤ g →
      vlineChunksAux W s L p o f = vlineChunksAux W s L p o g := by
  intro f
  induction f with
  | zero =>
    intro g o hf hg
    cases g with
    | zero => rfl
    | succ g =>
      simp only [vlineChunksAux]
      have : min W (L - o) = 0 := by omega
      simp [this]
  | succ f ih =>
    intro g o hf hg
    cases g with
    | zero =>
      simp only [vlineChunksAux]
      have : min W (L - o) = 0 := by omega
      simp [this]
    | succ g =>
      simp only [vlineChunksAux]
      by_cases h : 0 < min W (L - o)
      · simp only [if_pos h]
        have := ih g (o + min W (L - o)) (by omega) (by omega)
        rw [this]
      · simp only [if_neg h]

/-- All chunks of one logical line, from in-line offset 0. -/
def vlineChunks (W s L p : Nat) : List VirtualLine := vlineChunksAux W s L p 0 L

/-- Concatenation of the chunks of the successive lines, threading the
absolute offset `s` (ropey's `line_to_char`) and the line number `p`
(the iterator's `line_nr`). -/
def vtableAux (W : Nat) : Nat → Nat → List (List Char) → List VirtualLine
  | _, _, [] => []
  | s, p, l :: ls => vlineChunks W s l.length p ++ vtableAux W (s + l.length) (p + 1) ls

/-- The full Virtual Line Table that `iter_virtual_lines(0, W).collect()`
produces for a buffer. -/
def virtualLines (W : Nat) (buf : List Char) : List VirtualLine :=
  vtableAux W 0 0 (splitLines buf)

example : virtualLines 3 ['a', 'b', 'c', 'd'] =
    [⟨0, 3, 0, false⟩, ⟨3, 4, 0, true⟩] := by decide

example : virtualLines 3 ['a', '\n'] = [⟨0, 2, 0, false⟩] := by decide

example : virtualLines 3 [] = [] := by decide

/-- Absolute offset of the `i`-th line, ropey's `line_to_char`. -/
def lineStart (ls : List (List Char)) (i : Nat) : Nat :=
  ((ls.take i).map List.length).sum

/-- Character length of the `i`-th line (its newline included), ropey's
`line.len_chars()`. -/
def lineLen (ls : List (List Char)) (i : Nat) : Nat := (ls.getD i []).length

theorem VirtualLine.mk_eq_mk {a b c d a' b' c' d'} (h1 : a = a') (h2 : b = b')
    (h3 : c = c') (h4 : d = d') :
    VirtualLine.mk a b c d = VirtualLine.mk a' b' c' d' := by
  rw [h1, h2, h3, h4]

/-- Closed form of the `j`-th chunk of a line when iteration starts at
in-line offset `o` (derived, then specialised to `o = 0`). -/
def chunkSpecFrom (W s L p o : Nat) (j : Nat) : VirtualLine :=
  { start := s + o + j * W,
    stop := s + o + min ((j + 1) * W) (L - o),
    parent_line := p,
    subline := decide (L ≠ min W (L - o - j * W) ∧ o + j * W ≠ 0) }

/-- Closed form of the `j`-th chunk of a logical line of length `L` starting
at absolute offset `s`: it covers `[s + j*W, s + min ((j+1)*W) L)` and is a
continuation iff `j ≠ 0`. -/
def chunkSpec (W s L p : Nat) (j : Nat) : VirtualLine :=
  { start := s + j * W, stop := s + min ((j + 1) * W) L, parent_line := p,
    subline := decide (j ≠ 0) }

theorem vlineChunksAux_succ (W s L p o fuel : Nat) :
    vlineChunksAux W s L p o (fuel + 1) =
      if 0 < min W (L - o) then
        { start := s + o, stop := s + o + min W (L - o), parent_line := p,
          subline := decide (L ≠ min W (L - o) ∧ o ≠ 0) } ::
          vlineChunksAux W s L p (o + min W (L - o)) fuel
      else [] := rfl

theorem cldiv_zero_left (W : Nat) (hW : 0 < W) : cldiv 0 W = 0 := by
  unfold cldiv
  exact Nat.div_eq_of_lt (by omega)

theorem vlineChunksAux_eq (W s L p : Nat) (hW : 0 < W) :
    ∀ fuel o, L - o ≤ fuel →
      vlineChunksAux W s L p o fuel =
        (List.range (cldiv (L - o) W)).map (chunkSpecFrom W s L p o) := by
  intro fuel
  induction fuel with
  | zero =>
    intro o h
    have h0 : L - o = 0 := by omega
    rw [h0, cldiv_zero_left W hW]
    rfl
  | succ fuel ih =>
    intro o h
    rw [vlineChunksAux_succ]
    by_cases ho : o < L
    · have hlen : 0 < min W (L - o) := by omega
      rw [if_pos hlen]
      rw [ih (o + min W (L - o)) (by omega)]
      by_cases hw2 : W ≤ L - o
      · have hmin : min W (L - o) = W := min_eq_left hw2
        rw [hmin]
        have hc : cldiv (L - o) W = cldiv (L - (o + W)) W + 1 := by
          unfold cldiv
          have e1 : L - o + W - 1 = (L - o - 1) + W := by omega
          have e2 : L - (o + W) + W - 1 = L - o - 1 := by omega
          rw [e1, e2, Nat.add_div_right _ hW]
        rw [hc, List.range_succ_eq_map, List.map_cons, List.map_map]
        congr 1
        · simp only [chunkSpecFrom]
          have e1 : 1 * W = W := by ring
          exact VirtualLine.mk_eq_mk (by omega) (by omega) rfl
            (by rw [decide_eq_decide]; omega)
        · apply List.map_congr_left
          intro j hj
          simp only [Function.comp_apply, chunkSpecFrom, Nat.succ_eq_add_one]
          have e1 : (j + 1) * W = j * W + W := by ring
          have e2 : (j + 1 + 1) * W = j * W + W + W := by ring
          exact VirtualLine.mk_eq_mk (by omega) (by omega) rfl
            (by rw [decide_eq_decide]; omega)
      · have hmin : min W (L - o) = L - o := by omega
        rw [hmin]
        have hc : cldiv (L - o) W = 1 := by
          unfold cldiv
          have e1 : 1 * W = W := by ring
          apply Nat.div_eq_of_lt_le (by omega) (by omega)
        have h0 : L - (o + (L - o)) = 0 := by omega
        rw [hc, h0, cldiv_zero_left W hW]
        show _ :: ([] : List VirtualLine) = [chunkSpecFrom W s L p o 0]
        congr 1
        simp only [chunkSpecFrom]
        have e1 : 1 * W = W := by ring
        exact VirtualLine.mk_eq_mk (by omega) (by omega) rfl
          (by rw [decide_eq_decide]; omega)
    · have hlen : ¬ 0 < min W (L - o) := by omega
      rw [if_neg hlen]
      have h0 : L - o = 0 := by omega
      rw [h0, cldiv_zero_left W hW]
      rfl

theorem vlineChunks_eq (W s L p : Nat) (hW : 0 < W) :
    vlineChunks W s L p = (List.range (cldiv L W)).map (chunkSpec W s L p) := by
  rw [vlineChunks, vlineChunksAux_eq W s L p hW L 0 (by omega)]
  apply List.map_congr_left
  intro j hj
  have hjW : j * W < L := by
    have := List.mem_range.mp hj
    rw [Nat.sub_zero] at this
    exact (lt_cldiv_iff hW).mp this
  have hj0 : j * W = 0 ↔ j = 0 := by
    rw [Nat.mul_eq_zero]
    omega
  simp only [chunkSpecFrom, chunkSpec]
  exact VirtualLine.mk_eq_mk (by omega) (by omega) rfl
    (by rw [decide_eq_decide]; omega)

/-- Closed form of the whole-line block of a table whose lines are `ls`. -/
def lineBlock (W : Nat) (ls : List (List Char)) (i : Nat) : List VirtualLine :=
  (List.range (cldiv (lineLen ls i) W)).map
    (chunkSpec W (lineStart ls i) (lineLen ls i) i)

theorem vtableAux_eq (W : Nat) (hW : 0 < W) :
    ∀ (ls : List (List Char)) (s p : Nat),
      vtableAux W s p ls =
        ((List.range ls.length).map (fun i =>
          (List.range (cldiv (lineLen ls i) W)).map
            (chunkSpec W (s + lineStart ls i) (lineLen ls i) (p + i)))).flatten := by
  intro ls
  induction ls with
  | nil => intro s p; simp [vtableAux]
  | cons l ls ih =>
    intro s p
    simp only [vtableAux, List.length_cons]
    rw [List.range_succ_eq_map, List.map_cons, List.flatten_cons, List.map_map]
    congr 1
    · rw [vlineChunks_eq W s l.length p hW]
      apply List.map_congr_left
      intro j hj
      simp only [chunkSpec, lineLen, lineStart, List.getD_cons_zero,
        List.take_zero, List.map_nil, List.sum_nil, Nat.add_zero]
    · rw [ih (s + l.length) (p + 1)]
      congr 1
      apply List.map_congr_left
      intro i hi
      simp only [Function.comp_apply, Nat.succ_eq_add_one, lineLen, lineStart,
        List.getD_cons_succ, List.take_succ_cons, List.map_cons, List.sum_cons]
      apply List.map_congr_left
      intro j hj
      simp only [chunkSpec]
      exact VirtualLine.mk_eq_mk (by omega) (by omega) (by omega) rfl

/-- Characterisation of the Virtual Line Table: for wrap width `W > 0` it is,
line by line, the `⌈L/W⌉` chunks `[start + j*W, start + min ((j+1)*W) L)` of
each ropey line (newline included), the first chunk of each line marked
non-continuation and all others continuation. -/
theorem virtualLines_eq (W : Nat) (buf : List Char) (hW : 0 < W) :
    virtualLines W buf =
      ((List.range (splitLines buf).length).map (lineBlock W (splitLines buf))).flatten := by
  rw [virtualLines, vtableAux_eq W hW (splitLines buf) 0 0]
  congr 1
  apply List.map_congr_left
  intro i hi
  simp only [lineBlock, Nat.zero_add]

/-- Editor modes (src/editor.rs:100-105). -/
inductive Mode where
  | Normal
  | Insert
  | Quit
deriving DecidableEq

/-- The key codes this editor distinguishes (crossterm `KeyCode`, restricted
to the constructors the source matches on; every other code behaves like
`otherKey`). -/
inductive KeyCode where
  | char (c : Char)
  | enter
  | esc
  | otherKey
deriving DecidableEq

/-- The modifier sets the source compares against (`NONE`, `SHIFT`, anything
else). -/
inductive KeyModifiers where
  | none
  | shift
  | otherMods
deriving DecidableEq

/-- crossterm `KeyEventKind`. -/
inductive KeyEventKind where
  | press
  | repeat
  | release
deriving DecidableEq

/-- The commands stored in the bindings table of `Editor::new`
(src/editor.rs:120-153): each closure of the `bindings!` block, as data. -/
inductive Cmd where
  | toInsert
  | moveRight
  | moveLeft
  | moveUp
  | moveDown
  | setRedraw
  | toQuit
deriving DecidableEq

/-- Key of the bindings table: `(Mode, KeyModifiers, KeyCode)`. -/
def BKey := Mode × KeyModifiers × KeyCode
deriving instance DecidableEq for BKey

/-- `Cursor` (src/editor.rs:35-39): `x` is the on-screen row, `y` the
on-screen column, both `u16`. -/
structure Cursor where
  x : Nat
  y : Nat
deriving DecidableEq

/-- `Window` (src/editor.rs:94-98) without its `stdout` handle (I/O). -/
structure Window where
  height : Nat
  width : Nat
deriving DecidableEq

/-- The editor state (src/editor.rs:78-92).  `buf` stands for `FileBuf.rope`
(the path and the `dbg` string play no role in any claim and are omitted);
the bindings `HashMap` is an association list with unique keys. -/
structure Editor where
  window : Window
  mode : Mode
  redraw : Bool
  bindings : List (BKey × Cmd)
  buf : List Char
  scr_cursor : Cursor
  buf_cursor : Nat
  desired_position : Nat
  top_line : Nat
  cur_line : Nat
  cur_vline : Nat
  virtual_lines : List VirtualLine
deriving DecidableEq

/-- crossterm events, restricted to the payloads the source reads. -/
inductive REvent where
  | key (code : KeyCode) (modifiers : KeyModifiers) (kind : KeyEventKind)
  | mouse
  | paste
  | resize (width : Nat) (height : Nat)
  | focusGained
  | focusLost

/-- `Editor::cap_cursor` (src/editor.rs:261-264):
`scr_cursor.y = desired_position.min(virtual_lines[cur_vline].len().saturating_sub(1) as u16)`.
`none` models the panic of `virtual_lines[cur_vline]` when out of bounds. -/
def cap_cursor (e : Editor) : Option Editor :=
  match e.virtual_lines[e.cur_vline]? with
  | none => none
  | some v =>
    some { e with scr_cursor := { e.scr_cursor with
             y := min e.desired_position ((v.len - 1) % U16) } }

/-- The shared `cur_vline`/`cur_line` advance of `Editor::cursor_down`
(src/editor.rs:215-220 and 230-235): guarded by `cur_vline + 1 <
virtual_lines.len()`, so the indexing inside cannot panic and `getD` returns
the real element. -/
def bumpVline (e : Editor) : Editor :=
  if e.cur_vline + 1 < e.virtual_lines.length then
    let v := e.virtual_lines.getD (e.cur_vline + 1) ⟨0, 0, 0, false⟩
    { e with cur_vline := e.cur_vline + 1,
             cur_line := if v.subline then e.cur_line else (e.cur_line + 1) % U64 }
  else e

/-- `Editor::cursor_down` (src/editor.rs:210-241).  The guard of the scroll
branch is the wrapping `usize` computation
`top_line + 1 < virtual_lines.len() - window.height + 1`, and the scroll
branch ends with `buf_cursor += buf_cursor.abs_diff(virtual_lines[cur_vline].start)`,
unlike the non-scroll branch which sets
`buf_cursor = virtual_lines[cur_vline].start + scr_cursor.y`. -/
def cursor_down (e : Editor) : Option Editor :=
  if wsub U16 e.window.height 1 < (e.scr_cursor.x + 1) % U16 then
    match cap_cursor
        (if (e.top_line + 1) % U64 <
            (wsub U64 e.virtual_lines.length e.window.height + 1) % U64 then
          { bumpVline { e with top_line := (e.top_line + 1) % U64 } with redraw := true }
        else e) with
    | none => none
    | some e2 =>
      match e2.virtual_lines[e2.cur_vline]? with
      | none => none
      | some v =>
        some { e2 with buf_cursor := (e2.buf_cursor + Nat.dist e2.buf_cursor v.start) % U64 }
  else
    match cap_cursor
        (bumpVline { e with scr_cursor := { e.scr_cursor with x := (e.scr_cursor.x + 1) % U16 } }) with
    | none => none
    | some e2 =>
      match e2.virtual_lines[e2.cur_vline]? with
      | none => none
      | some v =>
        some { e2 with buf_cursor := (v.start + e2.scr_cursor.y) % U64 }

/-- The `if let Some(new_x) = scr_cursor.x.checked_sub(1)` step of
`Editor::cursor_up` (src/editor.rs:250-254): decrement the screen row if
positive, otherwise `top_line = top_line.saturating_sub(1)`. -/
def upShift (e : Editor) : Editor :=
  if e.scr_cursor.x = 0 then { e with top_line := e.top_line - 1 }
  else { e with scr_cursor := { e.scr_cursor with x := e.scr_cursor.x - 1 } }

/-- `Editor::cursor_up` (src/editor.rs:243-259): a no-op when
`cur_vline.checked_sub(1)` is `None`; otherwise decrement `cur_vline`,
saturating-decrement `cur_line` when the new virtual line is not a
continuation, apply `upShift`, `cap_cursor`, and recompute `buf_cursor`. -/
def cursor_up (e : Editor) : Option Editor :=
  if e.cur_vline = 0 then some e
  else
    match e.virtual_lines[e.cur_vline - 1]? with
    | none => none
    | some v =>
      match cap_cursor
          (upShift (if v.subline then { e with cur_vline := e.cur_vline - 1 }
            else { e with cur_vline := e.cur_vline - 1, cur_line := e.cur_line - 1 })) with
      | none => none
      | some e4 =>
        match e4.virtual_lines[e4.cur_vline]? with
        | none => none
        | some v2 =>
          some { e4 with buf_cursor := (v2.start + e4.scr_cursor.y) % U64 }

/-- `Editor::cursor_left` (src/editor.rs:196-208).  Note that the second
branch reads `virtual_lines[self.cur_line]` — the *logical* line index — and
leaves `cur_vline` unchanged. -/
def cursor_left (e : Editor) : Option Editor :=
  if 0 < e.scr_cursor.y then
    some { e with
      scr_cursor := { e.scr_cursor with y := e.scr_cursor.y - 1 },
      buf_cursor := wsub U64 e.buf_cursor 1,
      desired_position := e.scr_cursor.y - 1 }
  else
    match e.virtual_lines[e.cur_vline]? with
    | none => none
    | some v =>
      if v.subline then
        match e.virtual_lines[e.cur_line]? with
        | none => none
        | some vl =>
          some { e with
            scr_cursor := { x := e.scr_cursor.x - 1, y := (vl.len - 1) % U16 },
            buf_cursor := wsub U64 e.buf_cursor 1,
            desired_position := e.desired_position - 1 }
      else some e

/-- `Editor::cursor_right` (src/editor.rs:174-194).  `y <= cur_vline_len as
u16` truncates the `usize` length to `u16`; the trailing `log(...)` call is
I/O and indexes `virtual_lines[cur_vline]`, which is in bounds on every path
that reaches it. -/
def cursor_right (e : Editor) : Option Editor :=
  match e.virtual_lines[e.cur_vline]? with
  | none => none
  | some v =>
    if (e.scr_cursor.y + 1) % U16 ≤ e.window.width ∧
        (e.scr_cursor.y + 1) % U16 ≤ v.len % U16 then
      some { e with
        scr_cursor := { e.scr_cursor with y := (e.scr_cursor.y + 1) % U16 },
        buf_cursor := (v.start + (e.scr_cursor.y + 1) % U16) % U64,
        desired_position := (e.scr_cursor.y + 1) % U16 }
    else
      match e.virtual_lines[e.cur_vline + 1]? with
      | none => some e
      | some next_vline =>
        if next_vline.subline then
          match cursor_down { e with scr_cursor := { e.scr_cursor with y := 0 } } with
          | none => none
          | some e2 => some { e2 with desired_position := (e.scr_cursor.y + 1) % U16 }
        else some e

/-- `Editor::compute_virtual_lines` (src/editor.rs:322-329):
`available_width = window.width as usize - LINE_NUMBER_WIDTH` (wrapping,
`LINE_NUMBER_WIDTH = 3`), then rebuild the table. -/
def compute_virtual_lines (e : Editor) : Editor :=
  { e with virtual_lines := virtualLines (wsub U64 e.window.width 3) e.buf }

/-- The bindings table built by `Editor::new` (src/editor.rs:120-153). -/
def defaultBindings : List (BKey × Cmd) :=
  [ ((Mode.Normal, KeyModifiers.none, KeyCode.char 'i'), Cmd.toInsert),
    ((Mode.Normal, KeyModifiers.none, KeyCode.char 'd'), Cmd.moveRight),
    ((Mode.Normal, KeyModifiers.none, KeyCode.char 'a'), Cmd.moveLeft),
    ((Mode.Normal, KeyModifiers.none, KeyCode.char 'w'), Cmd.moveUp),
    ((Mode.Normal, KeyModifiers.none, KeyCode.char 's'), Cmd.moveDown),
    ((Mode.Normal, KeyModifiers.none, KeyCode.char 'r'), Cmd.setRedraw),
    ((Mode.Normal, KeyModifiers.none, KeyCode.char 'q'), Cmd.toQuit) ]

/-- `Editor::new` (src/editor.rs:119-172): zero-initialised cursor state,
then one `compute_virtual_lines`. -/
def Editor.new (window : Window) (buf : List Char) : Editor :=
  compute_virtual_lines
    { window := window, mode := Mode.Normal, redraw := false,
      bindings := defaultBindings, buf := buf,
      scr_cursor := { x := 0, y := 0 }, buf_cursor := 0,
      desired_position := 0, top_line := 0, cur_line := 0, cur_vline := 0,
      virtual_lines := [] }

/-- `HashMap` lookup on the association-list model of the bindings table. -/
def lookupBinding (bs : List (BKey × Cmd)) (k : BKey) : Option Cmd :=
  (bs.find? (fun p => p.1 = k)).map (fun p => p.2)

/-- `HashMap::remove`: deletes the entry of `k` (keys are unique). -/
def removeBinding (bs : List (BKey × Cmd)) (k : BKey) : List (BKey × Cmd) :=
  bs.filter (fun p => ¬ p.1 = k)

/-- `HashMap::insert`: adds (or replaces) the entry of `k`. -/
def insertBinding (bs : List (BKey × Cmd)) (k : BKey) (c : Cmd) : List (BKey × Cmd) :=
  (k, c) :: bs.filter (fun p => ¬ p.1 = k)

/-- `RedCmd::execute` for each closure of the `bindings!` block of
`Editor::new`: every command returns `Ok(mode)`; `none` models a panic
inside a cursor operation. -/
def Cmd.execute : Cmd → Editor → Option (Editor × Mode)
  | Cmd.toInsert, e => some (e, Mode.Insert)
  | Cmd.moveRight, e =>
    match cursor_right e with
    | none => none
    | some e' => some (e', Mode.Normal)
  | Cmd.moveLeft, e =>
    match cursor_left e with
    | none => none
    | some e' => some (e', Mode.Normal)
  | Cmd.moveUp, e =>
    match cursor_up e with
    | none => none
    | some e' => some (e', Mode.Normal)
  | Cmd.moveDown, e =>
    match cursor_down e with
    | none => none
    | some e' => some (e', Mode.Normal)
  | Cmd.setRedraw, e => some ({ e with redraw := true }, Mode.Normal)
  | Cmd.toQuit, e => some (e, Mode.Quit)

/-- `Rope::insert_char(offset, c)`: panics (`none`) when the offset exceeds
the character length. -/
def ropeInsert (buf : List Char) (i : Nat) (c : Char) : Option (List Char) :=
  if i ≤ buf.length then some (buf.take i ++ c :: buf.drop i) else none

/-- `char::to_uppercase().next().unwrap()`. -/
def upChar (c : Char) : Char := c.toUpper

/-- `Editor::handle_event` (src/editor.rs:368-427).  Returns the new mode
alongside the mutated editor (the caller `drive` stores it into `self.mode`);
`none` models a panic: the `todo!()` of the `Mode::Quit` arm, an
out-of-bounds rope insertion, or a panic inside a cursor operation. -/
def handle_event (e : Editor) (ev : REvent) : Option (Editor × Mode) :=
  match ev with
  | REvent.key code modifiers kind =>
    match kind with
    | KeyEventKind.press =>
      match e.mode with
      | Mode.Normal =>
        match lookupBinding e.bindings (Mode.Normal, modifiers, code) with
        | some command =>
          match command.execute
              { e with bindings := removeBinding e.bindings (Mode.Normal, modifiers, code) } with
          | none => none
          | some (e2, m) =>
            some ({ e2 with
                      bindings := insertBinding e2.bindings (Mode.Normal, modifiers, code) command },
                  m)
        | none => some (e, e.mode)
      | Mode.Insert =>
        match code with
        | KeyCode.esc => some (e, Mode.Normal)
        | KeyCode.enter =>
          if modifiers = KeyModifiers.none then
            match ropeInsert e.buf e.buf_cursor '\n' with
            | none => none
            | some buf' =>
              match cursor_down (compute_virtual_lines { e with buf := buf' }) with
              | none => none
              | some e2 => some ({ e2 with redraw := true }, e2.mode)
          else some (e, e.mode)
        | KeyCode.char c =>
          match ropeInsert e.buf e.buf_cursor
              (if modifiers = KeyModifiers.shift then upChar c else c) with
          | none => none
          | some buf' =>
            match cursor_right (compute_virtual_lines { e with buf := buf' }) with
            | none => none
            | some e2 => some ({ e2 with redraw := true }, e2.mode)
        | KeyCode.otherKey => some (e, e.mode)
      | Mode.Quit => none
    | KeyEventKind.repeat => some (e, e.mode)
    | KeyEventKind.release => some (e, e.mode)
  | REvent.mouse => some (e, e.mode)
  | REvent.paste => some (e, e.mode)
  | REvent.resize width height =>
    some ({ e with window := { height := height, width := width }, redraw := true }, e.mode)
  | REvent.focusGained => some (e, e.mode)
  | REvent.focusLost => some (e, e.mode)

/-- One turn of `Editor::drive` (src/editor.rs:331-348) restricted to event
processing: `self.mode = self.handle_event(event)?`. -/
def driveStep (e : Editor) (ev : REvent) : Option Editor :=
  match handle_event e ev with
  | none => none
  | some (e', m) => some { e' with mode := m }

/-- A sequence of processed input events. -/
def driveSeq : List REvent → Editor → Option Editor
  | [], e => some e
  | ev :: evs, e =>
    match driveStep e ev with
    | none => none
    | some e' => driveSeq evs e'

/-- A vertical move, for stating properties of `cursor_up`/`cursor_down`
sequences. -/
inductive Move where
  | up
  | down

def moveStep : Move → Editor → Option Editor
  | Move.up, e => cursor_up e
  | Move.down, e => cursor_down e

/-- A sequence of vertical moves. -/
def runMoves : List Move → Editor → Option Editor
  | [], e => some e
  | m :: ms, e =>
    match moveStep m e with
    | none => none
    | some e' => runMoves ms e'

/-- Default virtual line used with `List.getD` in statements. -/
def noVL : VirtualLine := ⟨0, 0, 0, false⟩


theorem cap_cursor_eq {e : Editor} {v : VirtualLine}
    (h : e.virtual_lines[e.cur_vline]? = some v) :
    cap_cursor e = some { e with scr_cursor := { e.scr_cursor with
      y := min e.desired_position ((v.len - 1) % U16) } } := by
  unfold cap_cursor
  rw [h]

@[simp] theorem bumpVline_virtual_lines (e : Editor) :
    (bumpVline e).virtual_lines = e.virtual_lines := by
  unfold bumpVline; split <;> rfl

@[simp] theorem bumpVline_window (e : Editor) :
    (bumpVline e).window = e.window := by
  unfold bumpVline; split <;> rfl

@[simp] theorem bumpVline_bindings (e : Editor) :
    (bumpVline e).bindings = e.bindings := by
  unfold bumpVline; split <;> rfl

@[simp] theorem bumpVline_mode (e : Editor) :
    (bumpVline e).mode = e.mode := by
  unfold bumpVline; split <;> rfl

@[simp] theorem bumpVline_buf (e : Editor) :
    (bumpVline e).buf = e.buf := by
  unfold bumpVline; split <;> rfl

@[simp] theorem bumpVline_scr_cursor (e : Editor) :
    (bumpVline e).scr_cursor = e.scr_cursor := by
  unfold bumpVline; split <;> rfl

@[simp] theorem bumpVline_buf_cursor (e : Editor) :
    (bumpVline e).buf_cursor = e.buf_cursor := by
  unfold bumpVline; split <;> rfl

@[simp] theorem bumpVline_desired_position (e : Editor) :
    (bumpVline e).desired_position = e.desired_position := by
  unfold bumpVline; split <;> rfl

@[simp] theorem bumpVline_top_line (e : Editor) :
    (bumpVline e).top_line = e.top_line := by
  unfold bumpVline; split <;> rfl

theorem bumpVline_cur_vline (e : Editor) :
    (bumpVline e).cur_vline =
      if e.cur_vline + 1 < e.virtual_lines.length then e.cur_vline + 1
      else e.cur_vline := by
  unfold bumpVline; split <;> rfl

/-- The branch condition of `cursor_down`: `scr_cursor.x + 1 > window.height - 1`
in wrapping `u16` arithmetic. -/
def downScrolls (e : Editor) : Prop :=
  wsub U16 e.window.height 1 < (e.scr_cursor.x + 1) % U16

instance (e : Editor) : Decidable (downScrolls e) := by
  unfold downScrolls
  infer_instance

theorem cursor_down_spec {e e' : Editor} (h : cursor_down e = some e') :
    e'.scr_cursor.y = min e.desired_position
      (((e'.virtual_lines.getD e'.cur_vline noVL).len - 1) % U16) ∧
    e'.desired_position = e.desired_position ∧
    e'.virtual_lines = e.virtual_lines ∧
    e'.window = e.window ∧
    e'.bindings = e.bindings ∧
    e'.mode = e.mode ∧
    e'.buf = e.buf ∧
    (downScrolls e →
      e'.buf_cursor = (e.buf_cursor + Nat.dist e.buf_cursor
        ((e'.virtual_lines.getD e'.cur_vline noVL).start)) % U64) ∧
    (¬ downScrolls e →
      e'.buf_cursor = (((e'.virtual_lines.getD e'.cur_vline noVL).start)
        + e'.scr_cursor.y) % U64) := by
  unfold cursor_down at h
  by_cases hsc : wsub U16 e.window.height 1 < (e.scr_cursor.x + 1) % U16
  · rw [if_pos hsc] at h
    generalize hE1 : (if (e.top_line + 1) % U64 <
        (wsub U64 e.virtual_lines.length e.window.height + 1) % U64 then
        { bumpVline { e with top_line := (e.top_line + 1) % U64 } with redraw := true }
      else e) = E1 at h
    have hfr : E1.virtual_lines = e.virtual_lines ∧
        E1.desired_position = e.desired_position ∧ E1.window = e.window ∧
        E1.bindings = e.bindings ∧ E1.mode = e.mode ∧ E1.buf = e.buf ∧
        E1.buf_cursor = e.buf_cursor := by
      rw [← hE1]
      split <;> simp
    obtain ⟨hf1, hf2, hf3, hf4, hf5, hf6, hf7⟩ := hfr
    cases hcap : cap_cursor E1 with
    | none => rw [hcap] at h; exact absurd h (by simp)
    | some e2 =>
      rw [hcap] at h
      simp only [] at h
      cases hidx : E1.virtual_lines[E1.cur_vline]? with
      | none => rw [cap_cursor, hidx] at hcap; exact absurd hcap (by simp)
      | some v1 =>
        have he2 : e2 = { E1 with scr_cursor := { E1.scr_cursor with
            y := min E1.desired_position ((v1.len - 1) % U16) } } := by
          rw [cap_cursor_eq hidx] at hcap
          exact ((Option.some.injEq _ _).mp hcap).symm
        have h2vl : e2.virtual_lines = E1.virtual_lines := by rw [he2]
        have h2cv : e2.cur_vline = E1.cur_vline := by rw [he2]
        have h2y : e2.scr_cursor.y = min E1.desired_position ((v1.len - 1) % U16) := by
          rw [he2]
        have h2d : e2.desired_position = E1.desired_position := by rw [he2]
        have h2bc : e2.buf_cursor = E1.buf_cursor := by rw [he2]
        have h2w : e2.window = E1.window := by rw [he2]
        have h2bi : e2.bindings = E1.bindings := by rw [he2]
        have h2m : e2.mode = E1.mode := by rw [he2]
        have h2bf : e2.buf = E1.buf := by rw [he2]
        cases hv : e2.virtual_lines[e2.cur_vline]? with
        | none => rw [h2vl, h2cv, hidx] at hv; exact absurd hv (by simp)
        | some v =>
          rw [hv] at h
          have hvv1 : v = v1 := by
            rw [h2vl, h2cv, hidx] at hv
            exact ((Option.some.injEq _ _).mp hv).symm
          have he' : e' = { e2 with
              buf_cursor := (e2.buf_cursor + Nat.dist e2.buf_cursor v.start) % U64 } := by
            exact ((Option.some.injEq _ _).mp h).symm
          subst he'
          have hgd : (({ e2 with buf_cursor :=
                (e2.buf_cursor + Nat.dist e2.buf_cursor v.start) % U64 } : Editor).virtual_lines.getD
              ({ e2 with buf_cursor :=
                (e2.buf_cursor + Nat.dist e2.buf_cursor v.start) % U64 } : Editor).cur_vline noVL) = v := by
            show (e2.virtual_lines.getD e2.cur_vline noVL) = v
            rw [List.getD_eq_getElem?_getD, hv]
            rfl
          refine ⟨?_, ?_, ?_, ?_, ?_, ?_, ?_, ?_, ?_⟩
          · show e2.scr_cursor.y = _
            rw [hgd, h2y, hf2, hvv1]
          · show e2.desired_position = _
            rw [h2d, hf2]
          · show e2.virtual_lines = _
            rw [h2vl, hf1]
          · show e2.window = _
            rw [h2w, hf3]
          · show e2.bindings = _
            rw [h2bi, hf4]
          · show e2.mode = _
            rw [h2m, hf5]
          · show e2.buf = _
            rw [h2bf, hf6]
          · intro hd
            show (e2.buf_cursor + Nat.dist e2.buf_cursor v.start) % U64 = _
            rw [hgd, h2bc, hf7]
          · intro hn
            exact absurd hsc hn
  · rw [if_neg hsc] at h
    generalize hE1 : bumpVline { e with scr_cursor :=
        { e.scr_cursor with x := (e.scr_cursor.x + 1) % U16 } } = E1 at h
    have hfr : E1.virtual_lines = e.virtual_lines ∧
        E1.desired_position = e.desired_position ∧ E1.window = e.window ∧
        E1.bindings = e.bindings ∧ E1.mode = e.mode ∧ E1.buf = e.buf ∧
        E1.buf_cursor = e.buf_cursor := by
      rw [← hE1]
      simp
    obtain ⟨hf1, hf2, hf3, hf4, hf5, hf6, hf7⟩ := hfr
    cases hcap : cap_cursor E1 with
    | none => rw [hcap] at h; exact absurd h (by simp)
    | some e2 =>
      rw [hcap] at h
      simp only [] at h
      cases hidx : E1.virtual_lines[E1.cur_vline]? with
      | none => rw [cap_cursor, hidx] at hcap; exact absurd hcap (by simp)
      | some v1 =>
        have he2 : e2 = { E1 with scr_cursor := { E1.scr_cursor with
            y := min E1.desired_position ((v1.len - 1) % U16) } } := by
          rw [cap_cursor_eq hidx] at hcap
          exact ((Option.some.injEq _ _).mp hcap).symm
        have h2vl : e2.virtual_lines = E1.virtual_lines := by rw [he2]
        have h2cv : e2.cur_vline = E1.cur_vline := by rw [he2]
        have h2y : e2.scr_cursor.y = min E1.desired_position ((v1.len - 1) % U16) := by
          rw [he2]
        have h2d : e2.desired_position = E1.desired_position := by rw [he2]
        have h2bc : e2.buf_cursor = E1.buf_cursor := by rw [he2]
        have h2w : e2.window = E1.window := by rw [he2]
        have h2bi : e2.bindings = E1.bindings := by rw [he2]
        have h2m : e2.mode = E1.mode := by rw [he2]
        have h2bf : e2.buf = E1.buf := by rw [he2]
        cases hv : e2.virtual_lines[e2.cur_vline]? with
        | none => rw [h2vl, h2cv, hidx] at hv; exact absurd hv (by simp)
        | some v =>
          rw [hv] at h
          have hvv1 : v = v1 := by
            rw [h2vl, h2cv, hidx] at hv
            exact ((Option.some.injEq _ _).mp hv).symm
          have he' : e' = { e2 with
              buf_cursor := (v.start + e2.scr_cursor.y) % U64 } := by
            exact ((Option.some.injEq _ _).mp h).symm
          subst he'
          have hgd : (({ e2 with buf_cursor :=
                (v.start + e2.scr_cursor.y) % U64 } : Editor).virtual_lines.getD
              ({ e2 with buf_cursor :=
                (v.start + e2.scr_cursor.y) % U64 } : Editor).cur_vline noVL) = v := by
            show (e2.virtual_lines.getD e2.cur_vline noVL) = v
            rw [List.getD_eq_getElem?_getD, hv]
            rfl
          refine ⟨?_, ?_, ?_, ?_, ?_, ?_, ?_, ?_, ?_⟩
          · show e2.scr_cursor.y = _
            rw [hgd, h2y, hf2, hvv1]
          · show e2.desired_position = _
            rw [h2d, hf2]
          · show e2.virtual_lines = _
            rw [h2vl, hf1]
          · show e2.window = _
            rw [h2w, hf3]
          · show e2.bindings = _
            rw [h2bi, hf4]
          · show e2.mode = _
            rw [h2m, hf5]
          · show e2.buf = _
            rw [h2bf, hf6]
          · intro hd
            exact absurd hd hsc
          · intro hn
            show (v.start + e2.scr_cursor.y) % U64 = _
            rw [hgd]

@[simp] theorem upShift_virtual_lines (e : Editor) :
    (upShift e).virtual_lines = e.virtual_lines := by
  unfold upShift; split <;> rfl

@[simp] theorem upShift_window (e : Editor) : (upShift e).window = e.window := by
  unfold upShift; split <;> rfl

@[simp] theorem upShift_bindings (e : Editor) : (upShift e).bindings = e.bindings := by
  unfold upShift; split <;> rfl

@[simp] theorem upShift_mode (e : Editor) : (upShift e).mode = e.mode := by
  unfold upShift; split <;> rfl

@[simp] theorem upShift_buf (e : Editor) : (upShift e).buf = e.buf := by
  unfold upShift; split <;> rfl

@[simp] theorem upShift_buf_cursor (e : Editor) :
    (upShift e).buf_cursor = e.buf_cursor := by
  unfold upShift; split <;> rfl

@[simp] theorem upShift_desired_position (e : Editor) :
    (upShift e).desired_position = e.desired_position := by
  unfold upShift; split <;> rfl

@[simp] theorem upShift_cur_vline (e : Editor) :
    (upShift e).cur_vline = e.cur_vline := by
  unfold upShift; split <;> rfl

@[simp] theorem upShift_scr_y (e : Editor) :
    (upShift e).scr_cursor.y = e.scr_cursor.y := by
  unfold upShift; split <;> rfl

theorem cursor_up_spec {e e' : Editor} (h : cursor_up e = some e') :
    e'.desired_position = e.desired_position ∧
    e'.virtual_lines = e.virtual_lines ∧
    e'.window = e.window ∧
    e'.bindings = e.bindings ∧
    e'.mode = e.mode ∧
    e'.buf = e.buf ∧
    (e.cur_vline = 0 → e' = e) ∧
    (e.cur_vline ≠ 0 →
      e'.scr_cursor.y = min e.desired_position
        (((e'.virtual_lines.getD e'.cur_vline noVL).len - 1) % U16) ∧
      e'.cur_vline = e.cur_vline - 1) := by
  unfold cursor_up at h
  by_cases hz : e.cur_vline = 0
  · rw [if_pos hz] at h
    have he' : e' = e := ((Option.some.injEq _ _).mp h).symm
    subst he'
    exact ⟨rfl, rfl, rfl, rfl, rfl, rfl, fun _ => rfl, fun hn => absurd hz hn⟩
  · rw [if_neg hz] at h
    cases hvm : e.virtual_lines[e.cur_vline - 1]? with
    | none => rw [hvm] at h; exact absurd h (by simp)
    | some v =>
      rw [hvm] at h
      simp only [] at h
      generalize hE1 : upShift (if v.subline then { e with cur_vline := e.cur_vline - 1 }
        else { e with cur_vline := e.cur_vline - 1, cur_line := e.cur_line - 1 }) = E1 at h
      have hfr : E1.virtual_lines = e.virtual_lines ∧
          E1.desired_position = e.desired_position ∧ E1.window = e.window ∧
          E1.bindings = e.bindings ∧ E1.mode = e.mode ∧ E1.buf = e.buf ∧
          E1.buf_cursor = e.buf_cursor ∧ E1.cur_vline = e.cur_vline - 1 := by
        rw [← hE1]
        split <;> simp
      obtain ⟨hf1, hf2, hf3, hf4, hf5, hf6, hf7, hf8⟩ := hfr
      cases hcap : cap_cursor E1 with
      | none => rw [hcap] at h; exact absurd h (by simp)
      | some e4 =>
        rw [hcap] at h
        simp only [] at h
        cases hidx : E1.virtual_lines[E1.cur_vline]? with
        | none => rw [cap_cursor, hidx] at hcap; exact absurd hcap (by simp)
        | some v1 =>
          have he4 : e4 = { E1 with scr_cursor := { E1.scr_cursor with
              y := min E1.desired_position ((v1.len - 1) % U16) } } := by
            rw [cap_cursor_eq hidx] at hcap
            exact ((Option.some.injEq _ _).mp hcap).symm
          have h4vl : e4.virtual_lines = E1.virtual_lines := by rw [he4]
          have h4cv : e4.cur_vline = E1.cur_vline := by rw [he4]
          have h4y : e4.scr_cursor.y = min E1.desired_position ((v1.len - 1) % U16) := by
            rw [he4]
          have h4d : e4.desired_position = E1.desired_position := by rw [he4]
          have h4w : e4.window = E1.window := by rw [he4]
          have h4bi : e4.bindings = E1.bindings := by rw [he4]
          have h4m : e4.mode = E1.mode := by rw [he4]
          have h4bf : e4.buf = E1.buf := by rw [he4]
          cases hv2 : e4.virtual_lines[e4.cur_vline]? with
          | none => rw [h4vl, h4cv, hidx] at hv2; exact absurd hv2 (by simp)
          | some v2 =>
            rw [hv2] at h
            have hvv1 : v2 = v1 := by
              rw [h4vl, h4cv, hidx] at hv2
              exact ((Option.some.injEq _ _).mp hv2).symm
            have he' : e' = { e4 with
                buf_cursor := (v2.start + e4.scr_cursor.y) % U64 } := by
              exact ((Option.some.injEq _ _).mp h).symm
            subst he'
            have hgd : (({ e4 with buf_cursor :=
                  (v2.start + e4.scr_cursor.y) % U64 } : Editor).virtual_lines.getD
                ({ e4 with buf_cursor :=
                  (v2.start + e4.scr_cursor.y) % U64 } : Editor).cur_vline noVL) = v2 := by
              show (e4.virtual_lines.getD e4.cur_vline noVL) = v2
              rw [List.getD_eq_getElem?_getD, hv2]
              rfl
            refine ⟨?_, ?_, ?_, ?_, ?_, ?_, ?_, ?_⟩
            · show e4.desired_position = _
              rw [h4d, hf2]
            · show e4.virtual_lines = _
              rw [h4vl, hf1]
            · show e4.window = _
              rw [h4w, hf3]
            · show e4.bindings = _
              rw [h4bi, hf4]
            · show e4.mode = _
              rw [h4m, hf5]
            · show e4.buf = _
              rw [h4bf, hf6]
            · intro h0
              exact absurd h0 hz
            · intro hn
              constructor
              · show e4.scr_cursor.y = _
                rw [hgd, h4y, hf2, hvv1]
              · show e4.cur_vline = _
                rw [h4cv, hf8]

theorem cursor_left_spec {e e' : Editor} (h : cursor_left e = some e') :
    e'.virtual_lines = e.virtual_lines ∧
    e'.window = e.window ∧
    e'.bindings = e.bindings ∧
    e'.mode = e.mode ∧
    e'.buf = e.buf ∧
    e'.cur_vline = e.cur_vline := by
  unfold cursor_left at h
  by_cases hy : 0 < e.scr_cursor.y
  · rw [if_pos hy] at h
    have he' := ((Option.some.injEq _ _).mp h).symm
    subst he'
    exact ⟨rfl, rfl, rfl, rfl, rfl, rfl⟩
  · rw [if_neg hy] at h
    cases hv : e.virtual_lines[e.cur_vline]? with
    | none => rw [hv] at h; exact absurd h (by simp)
    | some v =>
      rw [hv] at h
      simp only [] at h
      by_cases hs : v.subline = true
      · rw [if_pos hs] at h
        cases hvl : e.virtual_lines[e.cur_line]? with
        | none => rw [hvl] at h; exact absurd h (by simp)
        | some vl =>
          rw [hvl] at h
          simp only [] at h
          have he' := ((Option.some.injEq _ _).mp h).symm
          subst he'
          exact ⟨rfl, rfl, rfl, rfl, rfl, rfl⟩
      · rw [if_neg hs] at h
        have he' := ((Option.some.injEq _ _).mp h).symm
        subst he'
        exact ⟨rfl, rfl, rfl, rfl, rfl, rfl⟩

theorem cursor_right_spec {e e' : Editor} (h : cursor_right e = some e') :
    e'.virtual_lines = e.virtual_lines ∧
    e'.window = e.window ∧
    e'.bindings = e.bindings ∧
    e'.mode = e.mode ∧
    e'.buf = e.buf := by
  unfold cursor_right at h
  cases hv : e.virtual_lines[e.cur_vline]? with
  | none => rw [hv] at h; exact absurd h (by simp)
  | some v =>
    rw [hv] at h
    simp only [] at h
    by_cases hc : (e.scr_cursor.y + 1) % U16 ≤ e.window.width ∧
        (e.scr_cursor.y + 1) % U16 ≤ v.len % U16
    · rw [if_pos hc] at h
      have he' := ((Option.some.injEq _ _).mp h).symm
      subst he'
      exact ⟨rfl, rfl, rfl, rfl, rfl⟩
    · rw [if_neg hc] at h
      cases hn : e.virtual_lines[e.cur_vline + 1]? with
      | none =>
        rw [hn] at h
        have he' := ((Option.some.injEq _ _).mp h).symm
        subst he'
        exact ⟨rfl, rfl, rfl, rfl, rfl⟩
      | some nv =>
        rw [hn] at h
        simp only [] at h
        by_cases hs : nv.subline = true
        · rw [if_pos hs] at h
          cases hd : cursor_down { e with scr_cursor := { e.scr_cursor with y := 0 } } with
          | none => rw [hd] at h; exact absurd h (by simp)
          | some e2 =>
            rw [hd] at h
            simp only [] at h
            have he' := ((Option.some.injEq _ _).mp h).symm
            subst he'
            obtain ⟨-, -, hvl2, hw2, hbi2, hm2, hbf2, -, -⟩ := cursor_down_spec hd
            exact ⟨hvl2, hw2, hbi2, hm2, hbf2⟩
        · rw [if_neg hs] at h
          have he' := ((Option.some.injEq _ _).mp h).symm
          subst he'
          exact ⟨rfl, rfl, rfl, rfl, rfl⟩

theorem execute_bindings {c : Cmd} {e e' : Editor} {m : Mode}
    (h : c.execute e = some (e', m)) : e'.bindings = e.bindings := by
  cases c
  · have h3 : e = e' := congrArg Prod.fst ((Option.some.injEq _ _).mp h)
    rw [← h3]
  · unfold Cmd.execute at h
    simp only [] at h
    cases hr : cursor_right e with
    | none => rw [hr] at h; exact absurd h (by simp)
    | some e1 =>
      rw [hr] at h
      simp only [] at h
      have h3 : e1 = e' := congrArg Prod.fst ((Option.some.injEq _ _).mp h)
      rw [← h3]
      exact (cursor_right_spec hr).2.2.1
  · unfold Cmd.execute at h
    simp only [] at h
    cases hr : cursor_left e with
    | none => rw [hr] at h; exact absurd h (by simp)
    | some e1 =>
      rw [hr] at h
      simp only [] at h
      have h3 : e1 = e' := congrArg Prod.fst ((Option.some.injEq _ _).mp h)
      rw [← h3]
      exact (cursor_left_spec hr).2.2.1
  · unfold Cmd.execute at h
    simp only [] at h
    cases hr : cursor_up e with
    | none => rw [hr] at h; exact absurd h (by simp)
    | some e1 =>
      rw [hr] at h
      simp only [] at h
      have h3 : e1 = e' := congrArg Prod.fst ((Option.some.injEq _ _).mp h)
      rw [← h3]
      exact (cursor_up_spec hr).2.2.2.1
  · unfold Cmd.execute at h
    simp only [] at h
    cases hr : cursor_down e with
    | none => rw [hr] at h; exact absurd h (by simp)
    | some e1 =>
      rw [hr] at h
      simp only [] at h
      have h3 : e1 = e' := congrArg Prod.fst ((Option.some.injEq _ _).mp h)
      rw [← h3]
      exact (cursor_down_spec hr).2.2.2.2.1
  · have h3 : ({ e with redraw := true } : Editor) = e' :=
      congrArg Prod.fst ((Option.some.injEq _ _).mp h)
    rw [← h3]
  · have h3 : e = e' := congrArg Prod.fst ((Option.some.injEq _ _).mp h)
    rw [← h3]

theorem findBinding_filter_ne (k k0 : BKey) (hk : ¬ k = k0) :
    ∀ bs : List (BKey × Cmd),
      ((bs.filter (fun p => ¬ p.1 = k0)).find? (fun p => p.1 = k)) =
        bs.find? (fun p => p.1 = k)
  | [] => rfl
  | p :: bs => by
    by_cases h1 : p.1 = k0
    · rw [List.filter_cons_of_neg (by simp [h1])]
      rw [findBinding_filter_ne k k0 hk bs]
      have h2 : ¬ p.1 = k := by rw [h1]; intro hh; exact hk hh.symm
      rw [List.find?_cons_of_neg _ (by simp [h2])]
    · rw [List.filter_cons_of_pos (by simp [h1])]
      by_cases h2 : p.1 = k
      · rw [List.find?_cons_of_pos _ (by simp [h2]), List.find?_cons_of_pos _ (by simp [h2])]
      · rw [List.find?_cons_of_neg _ (by simp [h2]), List.find?_cons_of_neg _ (by simp [h2]),
          findBinding_filter_ne k k0 hk bs]

/-- Removing a bound key and reinserting the same command restores the map. -/
theorem lookupBinding_insert_remove (bs : List (BKey × Cmd)) (k0 : BKey) (c : Cmd)
    (hc : lookupBinding bs k0 = some c) :
    ∀ k, lookupBinding (insertBinding (removeBinding bs k0) k0 c) k = lookupBinding bs k := by
  intro k
  by_cases hk : k = k0
  · subst hk
    rw [hc]
    unfold lookupBinding insertBinding
    rw [List.find?_cons_of_pos _ (by simp)]
    rfl
  · unfold lookupBinding insertBinding removeBinding
    have hne : ¬ ((k0, c) : BKey × Cmd).1 = k := fun hh => hk hh.symm
    rw [List.find?_cons_of_neg _ (by simp [hne])]
    rw [findBinding_filter_ne k k0 hk (bs.filter (fun p => ¬ p.1 = k0))]
    rw [findBinding_filter_ne k k0 hk bs]

/-- C10: for every Normal-mode key press that `handle_event` processes to
completion, the key-bindings table afterwards binds exactly the same command
to every key as before: the matched command is removed, executed (no bound
command touches the table), and reinserted under the same key. -/
theorem c10_bindings_preserved (e : Editor) (code : KeyCode) (modifiers : KeyModifiers)
    (e' : Editor) (m : Mode) (hmode : e.mode = Mode.Normal)
    (h : handle_event e (REvent.key code modifiers KeyEventKind.press) = some (e', m)) :
    ∀ k, lookupBinding e'.bindings k = lookupBinding e.bindings k := by
  unfold handle_event at h
  rw [hmode] at h
  simp only [] at h
  cases hl : lookupBinding e.bindings (Mode.Normal, modifiers, code) with
  | none =>
    rw [hl] at h
    simp only [] at h
    have he' : e = e' := congrArg Prod.fst ((Option.some.injEq _ _).mp h)
    rw [← he']
    intro k
    rfl
  | some cmd =>
    rw [hl] at h
    simp only [] at h
    cases hx : cmd.execute
        { e with mode := Mode.Normal,
                 bindings := removeBinding e.bindings (Mode.Normal, modifiers, code) } with
    | none => rw [hx] at h; exact absurd h (by simp)
    | some p =>
      obtain ⟨e2, m2⟩ := p
      rw [hx] at h
      simp only [] at h
      have hfst : ({ e2 with
          bindings := insertBinding e2.bindings (Mode.Normal, modifiers, code) cmd } : Editor) = e' :=
        congrArg Prod.fst ((Option.some.injEq _ _).mp h)
      have hb2 : e2.bindings = removeBinding e.bindings (Mode.Normal, modifiers, code) :=
        execute_bindings hx
      intro k
      rw [← hfst]
      show lookupBinding (insertBinding e2.bindings (Mode.Normal, modifiers, code) cmd) k = _
      rw [hb2]
      exact lookupBinding_insert_remove e.bindings _ cmd hl k

def c10editor : Editor := Editor.new ⟨5, 10⟩ ['a', 'b']

def c10event : REvent := REvent.key (KeyCode.char 'd') KeyModifiers.none KeyEventKind.press

/-- C10 witness: the press of `d` (bound to `cursor_right`) in Normal mode
leaves the bindings of the key it was looked up under unchanged. -/
theorem c10_bindings_preserved_witness :
    lookupBinding ((handle_event c10editor c10event).getD (c10editor, c10editor.mode)).1.bindings
        (Mode.Normal, KeyModifiers.none, KeyCode.char 'd') =
      lookupBinding c10editor.bindings (Mode.Normal, KeyModifiers.none, KeyCode.char 'd') := by
  have h : handle_event c10editor c10event =
      some ((handle_event c10editor c10event).getD (c10editor, c10editor.mode)) := by
    rfl
  exact c10_bindings_preserved c10editor (KeyCode.char 'd') KeyModifiers.none _ _ rfl h _

def bufHelloWorld : List Char := ['h', 'e', 'l', 'l', 'o', '\n', 'w', 'o', 'r', 'l', 'd']

/-- C5 counterexample: with wrap width 3 on `"hello\nworld"` the table
claimed by the spec — second segment `(3,5)`, the newline at offset 5
excluded — is not what the iterator produces: ropey lines include their
newline, so the second segment is `(3,6)`. -/
theorem c5_wrap_example_counterexample :
    virtualLines 3 bufHelloWorld ≠
      [⟨0, 3, 0, false⟩, ⟨3, 5, 0, true⟩, ⟨6, 9, 1, false⟩, ⟨9, 11, 1, true⟩] := by
  decide

/-- C5 amended: the table for `"hello\nworld"` at wrap width 3 is
`[(0,3,line0,false), (3,6,line0,true), (6,9,line1,false), (9,11,line1,true)]`:
the newline at offset 5 is included in the second segment of line 0. -/
theorem c5_wrap_example_amended :
    virtualLines 3 bufHelloWorld =
      [⟨0, 3, 0, false⟩, ⟨3, 6, 0, true⟩, ⟨6, 9, 1, false⟩, ⟨9, 11, 1, true⟩] := by
  decide

/-- C1 counterexample: the buffer `"a\n"` has two ropey lines, the second of
length 0; the claim says a length-0 logical line yields exactly one
zero-length virtual line (`max(1, ceil(0/W)) = 1`), but the iterator yields
none at all. -/
theorem c1_empty_line_counterexample :
    (splitLines ['a', '\n']).length = 2 ∧
    lineLen (splitLines ['a', '\n']) 1 = 0 ∧
    ¬ ((virtualLines 3 ['a', '\n']).countP (fun v => v.parent_line == 1) =
        max 1 (cldiv (lineLen (splitLines ['a', '\n']) 1) 3)) := by
  decide

theorem flatten_filter_single {α : Type} (B : Nat → List α) (p : α → Bool) (i : Nat)
    (hp : ∀ j, j ≠ i → ∀ a ∈ B j, p a = false)
    (hi : ∀ a ∈ B i, p a = true) :
    ∀ n, i < n → (((List.range n).map B).flatten.filter p) = B i := by
  intro n
  induction n with
  | zero => omega
  | succ n ih =>
    intro hin
    rw [List.range_succ, List.map_append, List.flatten_append, List.filter_append]
    by_cases hi2 : i < n
    · rw [ih hi2]
      have hn : List.filter p (B n) = [] :=
        List.filter_eq_nil_iff.mpr (fun a ha => by simp [hp n (by omega) a ha])
      simp [hn]
    · have hie : i = n := by omega
      subst hie
      have h0 : List.filter p (List.map B (List.range i)).flatten = [] := by
        refine List.filter_eq_nil_iff.mpr ?_
        intro a ha
        rw [List.mem_flatten] at ha
        obtain ⟨l, hl, hal⟩ := ha
        rw [List.mem_map] at hl
        obtain ⟨j, hj, rfl⟩ := hl
        rw [List.mem_range] at hj
        simp [hp j (by omega) a hal]
      have h1 : List.filter p (B i) = B i :=
        List.filter_eq_self.mpr (fun a ha => hi a ha)
      simp [h0, h1]

/-- C1 amended (partition property as the code implements it): for any wrap
width `W > 0` the table is, logical line by logical line, exactly the
`⌈L/W⌉` consecutive chunks `[lineStart + j*W, lineStart + min ((j+1)*W) L)`
of each ropey line — `L` *includes* the terminating newline — so the segments
of a line partition `[lineStart, lineStart + L)` with no gaps or overlaps;
every segment is non-empty and at most `W` long; the first segment of each
line is non-continuation and the rest are continuations; the segment count
of each logical line is `⌈L/W⌉` (not `max(1, ⌈L/W⌉)`): a length-0 logical
line yields *no* virtual line. -/
theorem c1_partition_amended (W : Nat) (buf : List Char) (hW : 0 < W) :
    virtualLines W buf =
      ((List.range (splitLines buf).length).map (lineBlock W (splitLines buf))).flatten ∧
    (∀ v ∈ virtualLines W buf, 0 < v.len ∧ v.len ≤ W ∧
      0 < lineLen (splitLines buf) v.parent_line) ∧
    (∀ i, i < (splitLines buf).length →
      (virtualLines W buf).filter (fun v => v.parent_line == i) =
        lineBlock W (splitLines buf) i ∧
      (lineBlock W (splitLines buf) i).length =
        cldiv (lineLen (splitLines buf) i) W) := by
  refine ⟨virtualLines_eq W buf hW, ?_, ?_⟩
  · intro v hv
    rw [virtualLines_eq W buf hW] at hv
    rw [List.mem_flatten] at hv
    obtain ⟨l, hl, hvl⟩ := hv
    rw [List.mem_map] at hl
    obtain ⟨i, hi, rfl⟩ := hl
    unfold lineBlock at hvl
    rw [List.mem_map] at hvl
    obtain ⟨j, hj, rfl⟩ := hvl
    rw [List.mem_range] at hj
    have hjW : j * W < lineLen (splitLines buf) i := (lt_cldiv_iff hW).mp hj
    have e1 : (j + 1) * W = j * W + W := by ring
    refine ⟨?_, ?_, ?_⟩
    · show 0 < (lineStart (splitLines buf) i + min ((j + 1) * W) (lineLen (splitLines buf) i))
        - (lineStart (splitLines buf) i + j * W)
      omega
    · show (lineStart (splitLines buf) i + min ((j + 1) * W) (lineLen (splitLines buf) i))
        - (lineStart (splitLines buf) i + j * W) ≤ W
      omega
    · show 0 < lineLen (splitLines buf) i
      omega
  · intro i hi
    constructor
    · rw [virtualLines_eq W buf hW]
      apply flatten_filter_single (lineBlock W (splitLines buf))
        (fun v => v.parent_line == i) i
      · intro j hj a ha
        unfold lineBlock at ha
        rw [List.mem_map] at ha
        obtain ⟨j', hj', rfl⟩ := ha
        show (j == i) = false
        simp [hj]
      · intro a ha
        unfold lineBlock at ha
        rw [List.mem_map] at ha
        obtain ⟨j', hj', rfl⟩ := ha
        show (i == i) = true
        simp
      · exact hi
    · unfold lineBlock
      rw [List.length_map, List.length_range]

/-- C1 witness: the amended partition property instantiated at wrap width 3
and buffer `"hello\nworld"`. -/
theorem c1_partition_witness :
    virtualLines 3 bufHelloWorld =
      ((List.range (splitLines bufHelloWorld).length).map
        (lineBlock 3 (splitLines bufHelloWorld))).flatten :=
  (c1_partition_amended 3 bufHelloWorld (by decide)).1

/-- A Normal-mode key press with no modifiers, as `drive` reads it. -/
def keyPress (c : Char) : REvent :=
  REvent.key (KeyCode.char c) KeyModifiers.none KeyEventKind.press

def bufLong : List Char :=
  ['a', 'b', 'c', 'd', 'e', 'f', 'g', 'h', 'i', 'j', '\n', 'k', '\n', 'l', '\n', 'm', '\n', 'n']

/-- C8 counterexample: after three `cursor_down` presses on a `10×5` window,
a resize event to `6×2` leaves the editor with `cur_vline = 3` outside the
viewport `[top_line, top_line + 2)` and with the old table, which is not the
table wrapped at the new width: resize neither rebuilds nor re-clamps. -/
theorem c8_resize_counterexample :
    (driveSeq [keyPress 's', keyPress 's', keyPress 's', REvent.resize 6 2]
        (Editor.new ⟨5, 10⟩ bufLong)).map
        (fun e => (decide (e.top_line ≤ e.cur_vline ∧
                     e.cur_vline < e.top_line + e.window.height),
                   decide (e.virtual_lines =
                     virtualLines (wsub U64 e.window.width 3) e.buf)))
      = some (false, false) := by
  decide

/-- C8 amended: processing a resize event only stores the new dimensions and
requests a redraw; the table, every cursor field and the mode are unchanged
(the table is next rebuilt by an edit, not by the resize). -/
theorem c8_resize_amended (e : Editor) (w h : Nat) :
    handle_event e (REvent.resize w h) =
      some ({ e with window := { height := h, width := w }, redraw := true }, e.mode) := rfl

/-- C4 counterexample: on an empty buffer the table is empty and
`cursor_right`, `cursor_left` and `cursor_down` all index `virtual_lines[0]`
out of bounds — the movement panics instead of clamping. -/
theorem c4_empty_buffer_counterexample :
    (Editor.new ⟨5, 10⟩ []).virtual_lines = [] ∧
    cursor_right (Editor.new ⟨5, 10⟩ []) = none ∧
    cursor_left (Editor.new ⟨5, 10⟩ []) = none ∧
    cursor_down (Editor.new ⟨5, 10⟩ []) = none := by
  decide

theorem bumpVline_lt {e : Editor} (h : e.cur_vline < e.virtual_lines.length) :
    (bumpVline e).cur_vline < (bumpVline e).virtual_lines.length := by
  rw [bumpVline_virtual_lines, bumpVline_cur_vline]
  split <;> omega

theorem cap_cursor_isSome {e : Editor} (h : e.cur_vline < e.virtual_lines.length) :
    ∃ e2, cap_cursor e = some e2 ∧ e2.virtual_lines = e.virtual_lines ∧
      e2.cur_vline = e.cur_vline :=
  ⟨_, cap_cursor_eq (List.getElem?_eq_getElem h), rfl, rfl⟩

theorem cursor_down_isSome {e : Editor} (h : e.cur_vline < e.virtual_lines.length) :
    (cursor_down e).isSome := by
  unfold cursor_down
  by_cases hsc : wsub U16 e.window.height 1 < (e.scr_cursor.x + 1) % U16
  · rw [if_pos hsc]
    generalize hE1 : (if (e.top_line + 1) % U64 <
        (wsub U64 e.virtual_lines.length e.window.height + 1) % U64 then
        { bumpVline { e with top_line := (e.top_line + 1) % U64 } with redraw := true }
      else e) = E1
    have hlt : E1.cur_vline < E1.virtual_lines.length := by
      rw [← hE1]
      split
      · exact bumpVline_lt h
      · exact h
    obtain ⟨e2, hcap, hvl2, hcv2⟩ := cap_cursor_isSome hlt
    rw [hcap]
    simp only []
    have h2lt : e2.cur_vline < e2.virtual_lines.length := by rw [hvl2, hcv2]; exact hlt
    rw [List.getElem?_eq_getElem h2lt]
    simp
  · rw [if_neg hsc]
    have hlt : (bumpVline { e with scr_cursor :=
        { e.scr_cursor with x := (e.scr_cursor.x + 1) % U16 } }).cur_vline <
        (bumpVline { e with scr_cursor :=
        { e.scr_cursor with x := (e.scr_cursor.x + 1) % U16 } }).virtual_lines.length :=
      bumpVline_lt h
    obtain ⟨e2, hcap, hvl2, hcv2⟩ := cap_cursor_isSome hlt
    rw [hcap]
    simp only []
    have h2lt : e2.cur_vline < e2.virtual_lines.length := by rw [hvl2, hcv2]; exact hlt
    rw [List.getElem?_eq_getElem h2lt]
    simp

theorem cursor_up_isSome {e : Editor} (h : e.cur_vline < e.virtual_lines.length) :
    (cursor_up e).isSome := by
  unfold cursor_up
  by_cases hz : e.cur_vline = 0
  · rw [if_pos hz]
    simp
  · rw [if_neg hz]
    have hm1 : e.cur_vline - 1 < e.virtual_lines.length := by omega
    rw [List.getElem?_eq_getElem hm1]
    simp only []
    generalize hE1 : upShift (if (e.virtual_lines[e.cur_vline - 1]).subline then
        { e with cur_vline := e.cur_vline - 1 }
      else { e with cur_vline := e.cur_vline - 1, cur_line := e.cur_line - 1 }) = E1
    have hlt : E1.cur_vline < E1.virtual_lines.length := by
      rw [← hE1, upShift_virtual_lines, upShift_cur_vline]
      split <;> (show e.cur_vline - 1 < e.virtual_lines.length; omega)
    obtain ⟨e2, hcap, hvl2, hcv2⟩ := cap_cursor_isSome hlt
    rw [hcap]
    simp only []
    have h2lt : e2.cur_vline < e2.virtual_lines.length := by rw [hvl2, hcv2]; exact hlt
    rw [List.getElem?_eq_getElem h2lt]
    simp

theorem cursor_left_isSome {e : Editor} (h1 : e.cur_vline < e.virtual_lines.length)
    (h2 : e.cur_line < e.virtual_lines.length) :
    (cursor_left e).isSome := by
  unfold cursor_left
  by_cases hy : 0 < e.scr_cursor.y
  · rw [if_pos hy]
    simp
  · rw [if_neg hy]
    rw [List.getElem?_eq_getElem h1]
    simp only []
    by_cases hs : (e.virtual_lines[e.cur_vline]).subline = true
    · rw [if_pos hs, List.getElem?_eq_getElem h2]
      simp
    · rw [if_neg hs]
      simp

theorem cursor_right_isSome {e : Editor} (h1 : e.cur_vline < e.virtual_lines.length) :
    (cursor_right e).isSome := by
  unfold cursor_right
  rw [List.getElem?_eq_getElem h1]
  simp only []
  by_cases hc : (e.scr_cursor.y + 1) % U16 ≤ e.window.width ∧
      (e.scr_cursor.y + 1) % U16 ≤ (e.virtual_lines[e.cur_vline]).len % U16
  · rw [if_pos hc]
    simp
  · rw [if_neg hc]
    cases hn : e.virtual_lines[e.cur_vline + 1]? with
    | none => simp
    | some nv =>
      simp only []
      by_cases hs : nv.subline = true
      · rw [if_pos hs]
        cases hde : cursor_down
            { window := e.window, mode := e.mode, redraw := e.redraw,
              bindings := e.bindings, buf := e.buf,
              scr_cursor := { x := e.scr_cursor.x, y := 0 },
              buf_cursor := e.buf_cursor, desired_position := e.desired_position,
              top_line := e.top_line, cur_line := e.cur_line, cur_vline := e.cur_vline,
              virtual_lines := e.virtual_lines } with
        | none =>
          have hd : (cursor_down
              { window := e.window, mode := e.mode, redraw := e.redraw,
                bindings := e.bindings, buf := e.buf,
                scr_cursor := { x := e.scr_cursor.x, y := 0 },
                buf_cursor := e.buf_cursor, desired_position := e.desired_position,
                top_line := e.top_line, cur_line := e.cur_line, cur_vline := e.cur_vline,
                virtual_lines := e.virtual_lines } : Option Editor).isSome :=
            cursor_down_isSome (by exact h1)
          rw [hde] at hd
          exact absurd hd (by simp)
        | some e2 =>
          simp
      · rw [if_neg hs]
        simp

/-- C4 amended: the four movement operations cannot fail in any state whose
`cur_vline` and `cur_line` are valid indices of the (hence non-empty) virtual
line table; with an empty buffer the table is empty and movement panics. -/
theorem c4_infallible_amended (e : Editor)
    (h1 : e.cur_vline < e.virtual_lines.length)
    (h2 : e.cur_line < e.virtual_lines.length) :
    (cursor_right e).isSome ∧ (cursor_left e).isSome ∧
    (cursor_up e).isSome ∧ (cursor_down e).isSome :=
  ⟨cursor_right_isSome h1, cursor_left_isSome h1 h2,
   cursor_up_isSome h1, cursor_down_isSome h1⟩

/-- C4 witness: on the one-line buffer `"ab"` the initial state has valid
indices and every movement operation succeeds. -/
theorem c4_infallible_witness :
    (cursor_right (Editor.new ⟨5, 10⟩ ['a', 'b'])).isSome ∧
    (cursor_left (Editor.new ⟨5, 10⟩ ['a', 'b'])).isSome ∧
    (cursor_up (Editor.new ⟨5, 10⟩ ['a', 'b'])).isSome ∧
    (cursor_down (Editor.new ⟨5, 10⟩ ['a', 'b'])).isSome :=
  c4_infallible_amended (Editor.new ⟨5, 10⟩ ['a', 'b']) (by decide) (by decide)

def bufC6 : List Char := ['a', 'b', 'c', 'd', '\n', 'e', 'f', 'g', 'h']

/-- C6 counterexample: on `"abcd\nefgh"` wrapped at 3 (window `6×5`), three
`cursor_down` presses put the cursor at column 0 of virtual line 3 — a
continuation whose *previous* virtual line (index 2) has length 3, so the
claim demands `line_column = 2`.  The code instead reads
`virtual_lines[cur_line = 1]` (length 2) and sets `line_column = 1`. -/
theorem c6_left_wrap_counterexample :
    (driveSeq [keyPress 's', keyPress 's', keyPress 's', keyPress 'a']
        (Editor.new ⟨5, 6⟩ bufC6)).map (fun e => e.scr_cursor.y) = some 1 ∧
    ((Editor.new ⟨5, 6⟩ bufC6).virtual_lines.getD 2 noVL).len - 1 = 2 ∧
    ¬ ((1 : Nat) = 2) := by
  decide

/-- C6 amended: `cursor_left` at column 0 on a continuation line sets
`line_column` to `virtual_lines[cur_line].len() - 1` (saturating, truncated
to `u16`) — the virtual line indexed by the *logical* line number, not the
previous virtual line — decrements the screen row and `desired_column`
(saturating), decrements `buffer_offset` by one (wrapping), and leaves
`cur_vline` unchanged. -/
theorem c6_left_wrap_amended (e : Editor) (v vl : VirtualLine)
    (hy : e.scr_cursor.y = 0)
    (hv : e.virtual_lines[e.cur_vline]? = some v)
    (hs : v.subline = true)
    (hvl : e.virtual_lines[e.cur_line]? = some vl) :
    cursor_left e = some { e with
      scr_cursor := { x := e.scr_cursor.x - 1, y := (vl.len - 1) % U16 },
      buf_cursor := wsub U64 e.buf_cursor 1,
      desired_position := e.desired_position - 1 } := by
  unfold cursor_left
  rw [if_neg (by omega), hv]
  simp only []
  rw [if_pos hs, hvl]

def c6state : Editor :=
  (driveSeq [keyPress 's', keyPress 's', keyPress 's']
    (Editor.new ⟨5, 6⟩ bufC6)).getD (Editor.new ⟨5, 6⟩ bufC6)

/-- C6 witness: the amended behaviour at the concrete pre-state of the
counterexample trace (column set to `2 - 1 = 1` from `virtual_lines[1]`). -/
theorem c6_left_wrap_witness :
    cursor_left c6state = some { c6state with
      scr_cursor := { x := c6state.scr_cursor.x - 1,
                      y := ((VirtualLine.mk 3 5 0 true).len - 1) % U16 },
      buf_cursor := wsub U64 c6state.buf_cursor 1,
      desired_position := c6state.desired_position - 1 } :=
  c6_left_wrap_amended c6state ⟨8, 9, 1, true⟩ ⟨3, 5, 0, true⟩
    (by decide) (by decide) rfl (by decide)

def bufFive : List Char :=
  ['a', 'b', '\n', 'c', 'd', '\n', 'e', 'f', '\n', 'g', 'h', '\n', 'i', 'j']

/-- C7 counterexample: on a `10×2` window over five short lines, `right` then
`down` `down` makes the second `down` scroll; after it `buf_cursor = 6`
(old `4` plus `|4 − 6|`) while the current virtual line's start plus
`line_column` is `6 + 1 = 7`. -/
theorem c7_down_buf_counterexample :
    (driveSeq [keyPress 'd', keyPress 's', keyPress 's']
        (Editor.new ⟨2, 10⟩ bufFive)).map
        (fun e => decide (e.buf_cursor =
          (e.virtual_lines.getD e.cur_vline noVL).start + e.scr_cursor.y))
      = some false := by
  decide

/-- C7 amended: every completed `cursor_down` finishes with `cap_cursor`
(the new `line_column` is `min(desired_column, len − 1)` of the new current
virtual line), and then sets `buffer_offset` to the current virtual line's
start plus `line_column` *only in the non-scrolling branch*; the scrolling
branch instead adds `|buffer_offset − start|` to `buffer_offset`. -/
theorem c7_down_buf_amended (e e' : Editor) (h : cursor_down e = some e') :
    e'.scr_cursor.y = min e.desired_position
      (((e'.virtual_lines.getD e'.cur_vline noVL).len - 1) % U16) ∧
    (downScrolls e →
      e'.buf_cursor = (e.buf_cursor + Nat.dist e.buf_cursor
        ((e'.virtual_lines.getD e'.cur_vline noVL).start)) % U64) ∧
    (¬ downScrolls e →
      e'.buf_cursor = (((e'.virtual_lines.getD e'.cur_vline noVL).start)
        + e'.scr_cursor.y) % U64) := by
  obtain ⟨h1, -, -, -, -, -, -, h8, h9⟩ := cursor_down_spec h
  exact ⟨h1, h8, h9⟩

def c7pre : Editor :=
  (driveSeq [keyPress 'd', keyPress 's'] (Editor.new ⟨2, 10⟩ bufFive)).getD
    (Editor.new ⟨2, 10⟩ bufFive)

/-- C7 witness: the amended `cursor_down` contract applied at the pre-state
of the scrolling step of the counterexample trace. -/
theorem c7_down_buf_witness :
    ((cursor_down c7pre).getD c7pre).scr_cursor.y =
      min c7pre.desired_position
        (((((cursor_down c7pre).getD c7pre).virtual_lines.getD
            ((cursor_down c7pre).getD c7pre).cur_vline noVL).len - 1) % U16) :=
  (c7_down_buf_amended c7pre ((cursor_down c7pre).getD c7pre) (by decide)).1

/-- C3 counterexample: on the single virtual line `"ab"` (length 2), two
`cursor_right` presses reach `line_column = desired_column = 2`; `cursor_up`
at `cur_vline = 0` is a complete no-op that skips `cap_cursor`, so after this
vertical move `line_column = 2 ≠ min(desired_column, len − 1) = 1`. -/
theorem c3_sticky_column_counterexample :
    (driveSeq [keyPress 'd', keyPress 'd', keyPress 'w']
        (Editor.new ⟨2, 10⟩ ['a', 'b'])).map
        (fun e => (e.desired_position, e.scr_cursor.y,
          decide (e.scr_cursor.y = min e.desired_position
            (((e.virtual_lines.getD e.cur_vline noVL).len - 1) % U16))))
      = some (2, 2, false) := by
  decide

theorem runMoves_desired :
    ∀ (ms : List Move) (e e' : Editor), runMoves ms e = some e' →
      e'.desired_position = e.desired_position
  | [], e, e' => by
    intro h
    rw [← (Option.some.injEq _ _).mp h]
  | m :: ms, e, e' => by
    intro h
    unfold runMoves at h
    cases hs : moveStep m e with
    | none => rw [hs] at h; exact absurd h (by simp)
    | some e1 =>
      rw [hs] at h
      have h2 := runMoves_desired ms e1 e' h
      have h3 : e1.desired_position = e.desired_position := by
        cases m with
        | up => exact (cursor_up_spec hs).1
        | down => exact (cursor_down_spec hs).2.1
      rw [h2, h3]

/-- C3 amended: `desired_position` is unchanged by any sequence of vertical
moves, and `line_column` is re-derived as `min(desired_column, len − 1)` of
the new current virtual line after every `cursor_down` and after every
`cursor_up` that actually moves (`cur_vline ≠ 0`); a `cursor_up` at the top
is a no-op that skips `cap_cursor`. -/
theorem c3_sticky_column_amended (ms : List Move) (e e' : Editor)
    (h : runMoves ms e = some e') :
    e'.desired_position = e.desired_position ∧
    (∀ f f' : Editor, cursor_down f = some f' →
      f'.scr_cursor.y = min f.desired_position
        (((f'.virtual_lines.getD f'.cur_vline noVL).len - 1) % U16)) ∧
    (∀ f f' : Editor, f.cur_vline ≠ 0 → cursor_up f = some f' →
      f'.scr_cursor.y = min f.desired_position
        (((f'.virtual_lines.getD f'.cur_vline noVL).len - 1) % U16)) := by
  refine ⟨runMoves_desired ms e e' h, ?_, ?_⟩
  · intro f f' hf
    exact (cursor_down_spec hf).1
  · intro f f' hne hf
    obtain ⟨-, -, -, -, -, -, -, hlast⟩ := cursor_up_spec hf
    exact (hlast hne).1

/-- C3 witness: desired-column invariance on one concrete `cursor_down`. -/
theorem c3_sticky_column_witness :
    ((runMoves [Move.down] (Editor.new ⟨5, 10⟩ bufFive)).getD
        (Editor.new ⟨5, 10⟩ bufFive)).desired_position =
      (Editor.new ⟨5, 10⟩ bufFive).desired_position :=
  (c3_sticky_column_amended [Move.down] (Editor.new ⟨5, 10⟩ bufFive)
    ((runMoves [Move.down] (Editor.new ⟨5, 10⟩ bufFive)).getD
      (Editor.new ⟨5, 10⟩ bufFive)) (by decide)).1

/-- C9 counterexample: buffer `"a\nb"`, window `6×5` (wrap width 3); two
`cursor_right` presses put the cursor at column 2 of virtual line `[0,2)`
with `buf_cursor = 2`; entering Insert mode and typing `x` inserts at offset
2 (joining logical line 1), rebuilds the table to `[(0,2),(2,4)]`, and the
forward-cursor step does not move (column 3 exceeds the line and the next
virtual line is not a continuation): the cursor's virtual-line range `[0,2)`
does not contain the offset 3 that follows the inserted character — not even
with the endpoint included. -/
theorem c9_edit_resync_counterexample :
    (driveSeq [keyPress 'd', keyPress 'd', keyPress 'i', keyPress 'x']
        (Editor.new ⟨5, 6⟩ ['a', '\n', 'b'])).map
        (fun e => (e.buf,
          decide ((e.virtual_lines.getD e.cur_vline noVL).start ≤ 3 ∧
            3 ≤ (e.virtual_lines.getD e.cur_vline noVL).stop)))
      = some (['a', '\n', 'x', 'b'], false) := by
  decide

/-- `cursor_right` when the incremented column still fits the current
virtual line and the window width: the cursor moves one column right. -/
theorem cursor_right_in_line {e : Editor} {v : VirtualLine}
    (hv : e.virtual_lines[e.cur_vline]? = some v)
    (hy16 : e.scr_cursor.y + 1 < U16)
    (hw : e.scr_cursor.y + 1 ≤ e.window.width)
    (hlen : e.scr_cursor.y + 1 ≤ v.len)
    (hlen16 : v.len < U16) :
    cursor_right e = some { e with
      scr_cursor := { e.scr_cursor with y := (e.scr_cursor.y + 1) % U16 },
      buf_cursor := (v.start + (e.scr_cursor.y + 1) % U16) % U64,
      desired_position := (e.scr_cursor.y + 1) % U16 } := by
  unfold cursor_right
  rw [hv]
  simp only []
  rw [if_pos ?_]
  constructor
  · rw [Nat.mod_eq_of_lt hy16]
    exact hw
  · rw [Nat.mod_eq_of_lt hy16, Nat.mod_eq_of_lt hlen16]
    exact hlen

/-- C9 amended: inserting `c` at `buffer_offset` and rebuilding the table
(the `on_edit` pipeline of the Insert-mode `char` arm: insert, rebuild,
`cursor_right`), the cursor tracks the inserted character *provided* the
following position still lies within the current virtual line of the rebuilt
table (`line_column + 1 ≤ its length`, `≤ window width`) and the cursor was
in sync (`buffer_offset = start + line_column`): then `buffer_offset`
advances to just past the inserted character and that offset lies in the
current virtual line's closed range `[start, end]`.  At chunk or line
boundaries the property fails (see the counterexample), and with the
half-open range `[start, end)` it fails even in the in-line case when the
cursor reaches the line's end. -/
theorem c9_edit_resync_amended (e : Editor) (c : Char) (v : VirtualLine)
    (hv : (virtualLines (wsub U64 e.window.width 3)
        (e.buf.take e.buf_cursor ++ c :: e.buf.drop e.buf_cursor))[e.cur_vline]? = some v)
    (hsync : e.buf_cursor = v.start + e.scr_cursor.y)
    (hy16 : e.scr_cursor.y + 1 < U16)
    (hw : e.scr_cursor.y + 1 ≤ e.window.width)
    (hlen : e.scr_cursor.y + 1 ≤ v.len)
    (hlen16 : v.len < U16)
    (hnowrap : v.start + e.scr_cursor.y + 1 < U64) :
    ∃ e' : Editor,
      cursor_right (compute_virtual_lines
        { e with buf := e.buf.take e.buf_cursor ++ c :: e.buf.drop e.buf_cursor }) = some e' ∧
      e'.buf_cursor = e.buf_cursor + 1 ∧
      (e'.virtual_lines.getD e'.cur_vline noVL).start ≤ e.buf_cursor + 1 ∧
      e.buf_cursor + 1 ≤ (e'.virtual_lines.getD e'.cur_vline noVL).stop := by
  have hmod : (e.scr_cursor.y + 1) % U16 = e.scr_cursor.y + 1 := Nat.mod_eq_of_lt hy16
  refine ⟨_, cursor_right_in_line hv hy16 hw hlen hlen16, ?_, ?_, ?_⟩
  · show (v.start + (e.scr_cursor.y + 1) % U16) % U64 = e.buf_cursor + 1
    rw [hmod, Nat.mod_eq_of_lt (by omega)]
    omega
  · have hgd : ((virtualLines (wsub U64 e.window.width 3)
        (e.buf.take e.buf_cursor ++ c :: e.buf.drop e.buf_cursor)).getD e.cur_vline noVL) = v := by
      rw [List.getD_eq_getElem?_getD, hv]
      rfl
    show ((virtualLines (wsub U64 e.window.width 3)
        (e.buf.take e.buf_cursor ++ c :: e.buf.drop e.buf_cursor)).getD e.cur_vline noVL).start
      ≤ e.buf_cursor + 1
    rw [hgd]
    omega
  · have hgd : ((virtualLines (wsub U64 e.window.width 3)
        (e.buf.take e.buf_cursor ++ c :: e.buf.drop e.buf_cursor)).getD e.cur_vline noVL) = v := by
      rw [List.getD_eq_getElem?_getD, hv]
      rfl
    show e.buf_cursor + 1 ≤ ((virtualLines (wsub U64 e.window.width 3)
        (e.buf.take e.buf_cursor ++ c :: e.buf.drop e.buf_cursor)).getD e.cur_vline noVL).stop
    rw [hgd]
    have hvlen : v.len = v.stop - v.start := rfl
    omega

def c9base : Editor := Editor.new ⟨5, 10⟩ ['a', 'b']

/-- C9 witness: inserting `x` at offset 0 of `"ab"` (wrap width 7): the
rebuilt single virtual line `[0,3)` contains offset 1. -/
theorem c9_edit_resync_witness :
    ∃ e' : Editor,
      cursor_right (compute_virtual_lines
        { c9base with
          buf := c9base.buf.take c9base.buf_cursor ++ 'x' :: c9base.buf.drop c9base.buf_cursor })
        = some e' ∧
      e'.buf_cursor = c9base.buf_cursor + 1 ∧
      (e'.virtual_lines.getD e'.cur_vline noVL).start ≤ c9base.buf_cursor + 1 ∧
      c9base.buf_cursor + 1 ≤ (e'.virtual_lines.getD e'.cur_vline noVL).stop :=
  c9_edit_resync_amended c9base 'x' ⟨0, 3, 0, false⟩ (by decide) (by decide)
    (by decide) (by decide) (by decide) (by decide) (by decide)

/-- C2 counterexample: three `cursor_down` presses on a `10×5` window over
five virtual lines reach `cur_vline = 3`; a resize event to height 2 does not
re-clamp anything, leaving `cur_vline = 3 ≥ top_line + height = 2` while the
table is non-empty. -/
theorem c2_scroll_invariant_counterexample :
    (driveSeq [keyPress 's', keyPress 's', keyPress 's', REvent.resize 10 2]
        (Editor.new ⟨5, 10⟩ bufFive)).map
        (fun e => (decide (e.virtual_lines.length ≠ 0),
          decide (e.top_line ≤ e.cur_vline ∧
            e.cur_vline < e.top_line + e.window.height)))
      = some (true, false) := by
  decide

theorem cursor_up_fields {e e' : Editor} (h : cursor_up e = some e') :
    (e.cur_vline = 0 → e' = e) ∧
    (e.cur_vline ≠ 0 →
      e'.cur_vline = e.cur_vline - 1 ∧
      (e.scr_cursor.x = 0 → e'.top_line = e.top_line - 1 ∧ e'.scr_cursor.x = 0) ∧
      (e.scr_cursor.x ≠ 0 → e'.top_line = e.top_line ∧
        e'.scr_cursor.x = e.scr_cursor.x - 1)) := by
  unfold cursor_up at h
  by_cases hz : e.cur_vline = 0
  · rw [if_pos hz] at h
    have he' : e' = e := ((Option.some.injEq _ _).mp h).symm
    subst he'
    exact ⟨fun _ => rfl, fun hn => absurd hz hn⟩
  · rw [if_neg hz] at h
    refine ⟨fun h0 => absurd h0 hz, fun _ => ?_⟩
    cases hvm : e.virtual_lines[e.cur_vline - 1]? with
    | none => rw [hvm] at h; exact absurd h (by simp)
    | some v =>
      rw [hvm] at h
      simp only [] at h
      generalize hE1 : upShift (if v.subline then { e with cur_vline := e.cur_vline - 1 }
        else { e with cur_vline := e.cur_vline - 1, cur_line := e.cur_line - 1 }) = E1 at h
      have hfx : E1.cur_vline = e.cur_vline - 1 ∧
          (e.scr_cursor.x = 0 → E1.top_line = e.top_line - 1 ∧ E1.scr_cursor.x = 0) ∧
          (e.scr_cursor.x ≠ 0 → E1.top_line = e.top_line ∧
            E1.scr_cursor.x = e.scr_cursor.x - 1) := by
        rw [← hE1]
        by_cases hs : v.subline = true
        · rw [if_pos hs]
          unfold upShift
          by_cases hx0 : e.scr_cursor.x = 0
          · rw [if_pos (by exact hx0)]
            exact ⟨rfl, fun _ => ⟨rfl, hx0⟩, fun hn => absurd hx0 hn⟩
          · rw [if_neg (by exact hx0)]
            exact ⟨rfl, fun h0 => absurd h0 hx0, fun _ => ⟨rfl, rfl⟩⟩
        · rw [if_neg hs]
          unfold upShift
          by_cases hx0 : e.scr_cursor.x = 0
          · rw [if_pos (by exact hx0)]
            exact ⟨rfl, fun _ => ⟨rfl, hx0⟩, fun hn => absurd hx0 hn⟩
          · rw [if_neg (by exact hx0)]
            exact ⟨rfl, fun h0 => absurd h0 hx0, fun _ => ⟨rfl, rfl⟩⟩
      obtain ⟨hc1, hc2, hc3⟩ := hfx
      cases hcap : cap_cursor E1 with
      | none => rw [hcap] at h; exact absurd h (by simp)
      | some e4 =>
        rw [hcap] at h
        simp only [] at h
        cases hidx : E1.virtual_lines[E1.cur_vline]? with
        | none => rw [cap_cursor, hidx] at hcap; exact absurd hcap (by simp)
        | some v1 =>
          have he4 : e4 = { E1 with scr_cursor := { E1.scr_cursor with
              y := min E1.desired_position ((v1.len - 1) % U16) } } := by
            rw [cap_cursor_eq hidx] at hcap
            exact ((Option.some.injEq _ _).mp hcap).symm
          have h4cv : e4.cur_vline = E1.cur_vline := by rw [he4]
          have h4x : e4.scr_cursor.x = E1.scr_cursor.x := by rw [he4]
          have h4t : e4.top_line = E1.top_line := by rw [he4]
          have h4vl : e4.virtual_lines = E1.virtual_lines := by rw [he4]
          cases hv2 : e4.virtual_lines[e4.cur_vline]? with
          | none => rw [h4vl, h4cv, hidx] at hv2; exact absurd hv2 (by simp)
          | some v2 =>
            rw [hv2] at h
            have he' : e' = { e4 with
                buf_cursor := (v2.start + e4.scr_cursor.y) % U64 } := by
              exact ((Option.some.injEq _ _).mp h).symm
            subst he'
            refine ⟨?_, ?_, ?_⟩
            · show e4.cur_vline = _
              rw [h4cv, hc1]
            · intro hx0
              obtain ⟨ht, hx⟩ := hc2 hx0
              exact ⟨by show e4.top_line = _; rw [h4t, ht],
                     by show e4.scr_cursor.x = _; rw [h4x, hx]⟩
            · intro hx0
              obtain ⟨ht, hx⟩ := hc3 hx0
              exact ⟨by show e4.top_line = _; rw [h4t, ht],
                     by show e4.scr_cursor.x = _; rw [h4x, hx]⟩

theorem cursor_down_fields {e e' : Editor} (h : cursor_down e = some e')
    (hx16 : e.scr_cursor.x + 1 < U16) (hh16 : e.window.height < U16)
    (hh1 : 1 ≤ e.window.height)
    (hlen64 : e.virtual_lines.length < U64)
    (hhlen : e.window.height ≤ e.virtual_lines.length)
    (htoplen : e.top_line + 1 ≤ e.virtual_lines.length) :
    (e.window.height - 1 < e.scr_cursor.x + 1 →
      (e.top_line + 1 < e.virtual_lines.length - e.window.height + 1 →
        e'.top_line = e.top_line + 1 ∧
        e'.scr_cursor.x = e.scr_cursor.x ∧
        (e.cur_vline + 1 < e.virtual_lines.length → e'.cur_vline = e.cur_vline + 1) ∧
        (¬ e.cur_vline + 1 < e.virtual_lines.length → e'.cur_vline = e.cur_vline)) ∧
      (¬ e.top_line + 1 < e.virtual_lines.length - e.window.height + 1 →
        e'.top_line = e.top_line ∧ e'.scr_cursor.x = e.scr_cursor.x ∧
        e'.cur_vline = e.cur_vline)) ∧
    (¬ e.window.height - 1 < e.scr_cursor.x + 1 →
      e'.top_line = e.top_line ∧ e'.scr_cursor.x = (e.scr_cursor.x + 1) % U16 ∧
      (e.cur_vline + 1 < e.virtual_lines.length → e'.cur_vline = e.cur_vline + 1) ∧
      (¬ e.cur_vline + 1 < e.virtual_lines.length → e'.cur_vline = e.cur_vline)) := by
  have hxm : (e.scr_cursor.x + 1) % U16 = e.scr_cursor.x + 1 := Nat.mod_eq_of_lt hx16
  have hhm : wsub U16 e.window.height 1 = e.window.height - 1 :=
    wsub_eq_sub hh1 hh16
  have htm : (e.top_line + 1) % U64 = e.top_line + 1 :=
    Nat.mod_eq_of_lt (by omega)
  have hlm : wsub U64 e.virtual_lines.length e.window.height =
      e.virtual_lines.length - e.window.height :=
    wsub_eq_sub hhlen hlen64
  have hl1 : (e.virtual_lines.length - e.window.height + 1) % U64 =
      e.virtual_lines.length - e.window.height + 1 :=
    Nat.mod_eq_of_lt (by omega)
  unfold cursor_down at h
  rw [hhm, hxm, htm, hlm, hl1] at h
  by_cases hbr : e.window.height - 1 < e.scr_cursor.x + 1
  · rw [if_pos hbr] at h
    refine ⟨fun _ => ?_, fun hn => absurd hbr hn⟩
    by_cases hg : e.top_line + 1 < e.virtual_lines.length - e.window.height + 1
    · rw [if_pos hg] at h
      generalize hE1 : ({ bumpVline
          { window := e.window, mode := e.mode, redraw := e.redraw, bindings := e.bindings,
            buf := e.buf, scr_cursor := e.scr_cursor, buf_cursor := e.buf_cursor,
            desired_position := e.desired_position, top_line := e.top_line + 1,
            cur_line := e.cur_line, cur_vline := e.cur_vline,
            virtual_lines := e.virtual_lines } with redraw := true } : Editor) = E1 at h
      have hfx : E1.top_line = e.top_line + 1 ∧ E1.scr_cursor.x = e.scr_cursor.x ∧
          E1.virtual_lines = e.virtual_lines ∧
          (e.cur_vline + 1 < e.virtual_lines.length → E1.cur_vline = e.cur_vline + 1) ∧
          (¬ e.cur_vline + 1 < e.virtual_lines.length → E1.cur_vline = e.cur_vline) := by
        rw [← hE1]
        refine ⟨by rw [bumpVline_top_line], by rw [bumpVline_scr_cursor],
          by rw [bumpVline_virtual_lines], ?_, ?_⟩
        · intro hc
          rw [bumpVline_cur_vline]
          exact if_pos (by exact hc)
        · intro hc
          rw [bumpVline_cur_vline]
          exact if_neg (by exact hc)
      obtain ⟨hc1, hc2, hc3, hc4, hc5⟩ := hfx
      refine ⟨fun _ => ?_, fun hn => absurd hg hn⟩
      cases hcap : cap_cursor E1 with
      | none => rw [hcap] at h; exact absurd h (by simp)
      | some e2 =>
        rw [hcap] at h
        simp only [] at h
        cases hidx : E1.virtual_lines[E1.cur_vline]? with
        | none => rw [cap_cursor, hidx] at hcap; exact absurd hcap (by simp)
        | some v1 =>
          have he2 : e2 = { E1 with scr_cursor := { E1.scr_cursor with
              y := min E1.desired_position ((v1.len - 1) % U16) } } := by
            rw [cap_cursor_eq hidx] at hcap
            exact ((Option.some.injEq _ _).mp hcap).symm
          have h2cv : e2.cur_vline = E1.cur_vline := by rw [he2]
          have h2x : e2.scr_cursor.x = E1.scr_cursor.x := by rw [he2]
          have h2t : e2.top_line = E1.top_line := by rw [he2]
          have h2vl : e2.virtual_lines = E1.virtual_lines := by rw [he2]
          cases hv2 : e2.virtual_lines[e2.cur_vline]? with
          | none => rw [h2vl, h2cv, hidx] at hv2; exact absurd hv2 (by simp)
          | some v2 =>
            rw [hv2] at h
            have he' : e' = { e2 with
                buf_cursor := (e2.buf_cursor + Nat.dist e2.buf_cursor v2.start) % U64 } := by
              exact ((Option.some.injEq _ _).mp h).symm
            subst he'
            refine ⟨?_, ?_, ?_, ?_⟩
            · show e2.top_line = _
              rw [h2t, hc1]
            · show e2.scr_cursor.x = _
              rw [h2x, hc2]
            · intro hc
              show e2.cur_vline = _
              rw [h2cv, hc4 hc]
            · intro hc
              show e2.cur_vline = _
              rw [h2cv, hc5 hc]
    · rw [if_neg hg] at h
      refine ⟨fun hgg => absurd hgg hg, fun _ => ?_⟩
      cases hcap : cap_cursor e with
      | none => rw [hcap] at h; exact absurd h (by simp)
      | some e2 =>
        rw [hcap] at h
        simp only [] at h
        cases hidx : e.virtual_lines[e.cur_vline]? with
        | none => rw [cap_cursor, hidx] at hcap; exact absurd hcap (by simp)
        | some v1 =>
          have he2 : e2 = { e with scr_cursor := { e.scr_cursor with
              y := min e.desired_position ((v1.len - 1) % U16) } } := by
            rw [cap_cursor_eq hidx] at hcap
            exact ((Option.some.injEq _ _).mp hcap).symm
          have h2cv : e2.cur_vline = e.cur_vline := by rw [he2]
          have h2x : e2.scr_cursor.x = e.scr_cursor.x := by rw [he2]
          have h2t : e2.top_line = e.top_line := by rw [he2]
          have h2vl : e2.virtual_lines = e.virtual_lines := by rw [he2]
          cases hv2 : e2.virtual_lines[e2.cur_vline]? with
          | none => rw [h2vl, h2cv, hidx] at hv2; exact absurd hv2 (by simp)
          | some v2 =>
            rw [hv2] at h
            have he' : e' = { e2 with
                buf_cursor := (e2.buf_cursor + Nat.dist e2.buf_cursor v2.start) % U64 } := by
              exact ((Option.some.injEq _ _).mp h).symm
            subst he'
            exact ⟨by show e2.top_line = _; rw [h2t],
                   by show e2.scr_cursor.x = _; rw [h2x],
                   by show e2.cur_vline = _; rw [h2cv]⟩
  · rw [if_neg hbr] at h
    refine ⟨fun hn => absurd hn hbr, fun _ => ?_⟩
    generalize hE1 : bumpVline
        { window := e.window, mode := e.mode, redraw := e.redraw, bindings := e.bindings,
          buf := e.buf, scr_cursor := { x := e.scr_cursor.x + 1, y := e.scr_cursor.y },
          buf_cursor := e.buf_cursor, desired_position := e.desired_position,
          top_line := e.top_line, cur_line := e.cur_line, cur_vline := e.cur_vline,
          virtual_lines := e.virtual_lines } = E1 at h
    have hfx : E1.top_line = e.top_line ∧ E1.scr_cursor.x = e.scr_cursor.x + 1 ∧
        E1.virtual_lines = e.virtual_lines ∧
        (e.cur_vline + 1 < e.virtual_lines.length → E1.cur_vline = e.cur_vline + 1) ∧
        (¬ e.cur_vline + 1 < e.virtual_lines.length → E1.cur_vline = e.cur_vline) := by
      rw [← hE1]
      refine ⟨by rw [bumpVline_top_line], by rw [bumpVline_scr_cursor], by rw [bumpVline_virtual_lines], ?_, ?_⟩
      · intro hc
        rw [bumpVline_cur_vline]
        exact if_pos (by exact hc)
      · intro hc
        rw [bumpVline_cur_vline]
        exact if_neg (by exact hc)
    obtain ⟨hc1, hc2, hc3, hc4, hc5⟩ := hfx
    cases hcap : cap_cursor E1 with
    | none => rw [hcap] at h; exact absurd h (by simp)
    | some e2 =>
      rw [hcap] at h
      simp only [] at h
      cases hidx : E1.virtual_lines[E1.cur_vline]? with
      | none => rw [cap_cursor, hidx] at hcap; exact absurd hcap (by simp)
      | some v1 =>
        have he2 : e2 = { E1 with scr_cursor := { E1.scr_cursor with
            y := min E1.desired_position ((v1.len - 1) % U16) } } := by
          rw [cap_cursor_eq hidx] at hcap
          exact ((Option.some.injEq _ _).mp hcap).symm
        have h2cv : e2.cur_vline = E1.cur_vline := by rw [he2]
        have h2x : e2.scr_cursor.x = E1.scr_cursor.x := by rw [he2]
        have h2t : e2.top_line = E1.top_line := by rw [he2]
        have h2vl : e2.virtual_lines = E1.virtual_lines := by rw [he2]
        cases hv2 : e2.virtual_lines[e2.cur_vline]? with
        | none => rw [h2vl, h2cv, hidx] at hv2; exact absurd hv2 (by simp)
        | some v2 =>
          rw [hv2] at h
          have he' : e' = { e2 with
              buf_cursor := (v2.start + e2.scr_cursor.y) % U64 } := by
            exact ((Option.some.injEq _ _).mp h).symm
          subst he'
          refine ⟨?_, ?_, ?_, ?_⟩
          · show e2.top_line = _
            rw [h2t, hc1]
          · show e2.scr_cursor.x = _
            rw [h2x, hc2, hxm]
          · intro hc
            show e2.cur_vline = _
            rw [h2cv, hc4 hc]
          · intro hc
            show e2.cur_vline = _
            rw [h2cv, hc5 hc]

/-- The strengthened scrolling invariant maintained by vertical moves on a
fixed window whose height fits the table: the viewport row always equals
`cur_vline - top_line`. -/
def ScrollInv (e : Editor) : Prop :=
  0 < e.window.height ∧ e.window.height < U16 ∧
  e.virtual_lines.length < U64 ∧
  e.top_line + e.window.height ≤ e.virtual_lines.length ∧
  e.top_line ≤ e.cur_vline ∧
  e.cur_vline < e.top_line + e.window.height ∧
  e.scr_cursor.x = e.cur_vline - e.top_line

theorem moveStep_inv {m : Move} {e : Editor} (hI : ScrollInv e) :
    ∃ e', moveStep m e = some e' ∧ ScrollInv e' := by
  obtain ⟨h1, h2, h3, h4, h5, h6, h7⟩ := hI
  have hcur : e.cur_vline < e.virtual_lines.length := by omega
  cases m with
  | up =>
    have hs := cursor_up_isSome hcur
    cases hu : cursor_up e with
    | none => rw [hu] at hs; exact absurd hs (by simp)
    | some e' =>
      refine ⟨e', hu, ?_⟩
      obtain ⟨-, hvl, hw, -, -, -, hz, hnz⟩ := cursor_up_spec hu
      obtain ⟨hz2, hnz2⟩ := cursor_up_fields hu
      by_cases h0 : e.cur_vline = 0
      · rw [hz2 h0]
        exact ⟨h1, h2, h3, h4, h5, h6, h7⟩
      · obtain ⟨hcv, hx0, hxn⟩ := hnz2 h0
        by_cases hx : e.scr_cursor.x = 0
        · obtain ⟨ht, hxx⟩ := hx0 hx
          refine ⟨?_, ?_, ?_, ?_, ?_, ?_, ?_⟩ <;>
            simp only [hvl, hw, ht, hcv, hxx] <;> omega
        · obtain ⟨ht, hxx⟩ := hxn hx
          refine ⟨?_, ?_, ?_, ?_, ?_, ?_, ?_⟩ <;>
            simp only [hvl, hw, ht, hcv, hxx] <;> omega
  | down =>
    have hs := cursor_down_isSome hcur
    cases hd : cursor_down e with
    | none => rw [hd] at hs; exact absurd hs (by simp)
    | some e' =>
      refine ⟨e', hd, ?_⟩
      obtain ⟨-, -, hvl, hw, -, -, -, -, -⟩ := cursor_down_spec hd
      have hfd := cursor_down_fields hd (by omega) h2 (by omega) h3 (by omega) (by omega)
      obtain ⟨hsc, hnsc⟩ := hfd
      by_cases hbr : e.window.height - 1 < e.scr_cursor.x + 1
      · obtain ⟨hg, hng⟩ := hsc hbr
        by_cases hguard : e.top_line + 1 < e.virtual_lines.length - e.window.height + 1
        · obtain ⟨ht, hx, hcp, hcn⟩ := hg hguard
          have hcur1 : e.cur_vline + 1 < e.virtual_lines.length := by omega
          refine ⟨?_, ?_, ?_, ?_, ?_, ?_, ?_⟩ <;>
            simp only [hvl, hw, ht, hx, hcp hcur1] <;> omega
        · obtain ⟨ht, hx, hc⟩ := hng hguard
          refine ⟨?_, ?_, ?_, ?_, ?_, ?_, ?_⟩ <;>
            simp only [hvl, hw, ht, hx, hc] <;> omega
      · obtain ⟨ht, hx, hcp, hcn⟩ := hnsc hbr
        have hcur1 : e.cur_vline + 1 < e.virtual_lines.length := by omega
        have hxm : (e.scr_cursor.x + 1) % U16 = e.scr_cursor.x + 1 :=
          Nat.mod_eq_of_lt (by omega)
        refine ⟨?_, ?_, ?_, ?_, ?_, ?_, ?_⟩ <;>
          simp only [hvl, hw, ht, hx, hxm, hcp hcur1] <;> omega

theorem runMoves_inv :
    ∀ (ms : List Move) (e : Editor), ScrollInv e →
      ∃ e', runMoves ms e = some e' ∧ ScrollInv e'
  | [], e, hI => ⟨e, rfl, hI⟩
  | m :: ms, e, hI => by
    obtain ⟨e1, h1, hI1⟩ := moveStep_inv (m := m) hI
    obtain ⟨e', h2, hI2⟩ := runMoves_inv ms e1 hI1
    refine ⟨e', ?_, hI2⟩
    unfold runMoves
    rw [h1]
    exact h2

/-- C2 amended: starting from the initial editor state of a window whose
height `h` satisfies `1 ≤ h ≤ table length` (`h < 2^16`, table length
`< 2^64`), after any sequence of `cursor_up`/`cursor_down` moves — no resize —
the scrolling invariant `top_line ≤ cur_vline < top_line + height` holds.
Resize events break the claim because they re-clamp nothing (see the
counterexample and C8), and a window taller than the table breaks it through
the wrapping guard `virtual_lines.len() - window.height + 1`. -/
theorem c2_scroll_invariant_amended (win : Window) (buf : List Char) (ms : List Move)
    (h1 : 0 < win.height) (h2 : win.height < U16)
    (h3 : (Editor.new win buf).virtual_lines.length < U64)
    (h4 : win.height ≤ (Editor.new win buf).virtual_lines.length)
    (e' : Editor) (h : runMoves ms (Editor.new win buf) = some e') :
    e'.top_line ≤ e'.cur_vline ∧ e'.cur_vline < e'.top_line + e'.window.height := by
  have hI : ScrollInv (Editor.new win buf) := by
    refine ⟨h1, h2, h3, ?_, ?_, ?_, ?_⟩
    · show (0 : Nat) + win.height ≤ (Editor.new win buf).virtual_lines.length
      omega
    · show (0 : Nat) ≤ 0
      omega
    · show (0 : Nat) < 0 + win.height
      omega
    · show (0 : Nat) = 0 - 0
      omega
  obtain ⟨e'', hrun, hI'⟩ := runMoves_inv ms (Editor.new win buf) hI
  rw [h] at hrun
  have he : e' = e'' := (Option.some.injEq _ _).mp hrun
  subst he
  obtain ⟨-, -, -, -, h5, h6, -⟩ := hI'
  exact ⟨h5, h6⟩

/-- C2 witness: two `cursor_down` moves on a `10×2` window over five virtual
lines keep the cursor inside the viewport. -/
theorem c2_scroll_invariant_witness :
    ((runMoves [Move.down, Move.down] (Editor.new ⟨2, 10⟩ bufFive)).getD
        (Editor.new ⟨2, 10⟩ bufFive)).top_line ≤
      ((runMoves [Move.down, Move.down] (Editor.new ⟨2, 10⟩ bufFive)).getD
        (Editor.new ⟨2, 10⟩ bufFive)).cur_vline ∧
    ((runMoves [Move.down, Move.down] (Editor.new ⟨2, 10⟩ bufFive)).getD
        (Editor.new ⟨2, 10⟩ bufFive)).cur_vline <
      ((runMoves [Move.down, Move.down] (Editor.new ⟨2, 10⟩ bufFive)).getD
        (Editor.new ⟨2, 10⟩ bufFive)).top_line +
      ((runMoves [Move.down, Move.down] (Editor.new ⟨2, 10⟩ bufFive)).getD
        (Editor.new ⟨2, 10⟩ bufFive)).window.height :=
  c2_scroll_invariant_amended ⟨2, 10⟩ bufFive [Move.down, Move.down]
    (by decide) (by decide) (by decide) (by decide)
    ((runMoves [Move.down, Move.down] (Editor.new ⟨2, 10⟩ bufFive)).getD
      (Editor.new ⟨2, 10⟩ bufFive)) (by decide)
